import Mathlib

/-!
# Verification of the zkevm-specs EVM-circuit instruction constraint library

This file gives a shallow embedding of `src/zkevm_specs/evm_circuit/instruction.py`
(the instruction constraint library) and proves properties of it.

Conventions of the embedding:

* A field element (Python `FQ`, an integer modulo a large prime) is represented by
  its canonical representative, a `Nat` below `P`; the field operations reduce
  modulo `P` explicitly.  Python's `.n` accessor is the representative itself.
* A 256-bit `Word` is a pair of 128-bit limbs `(lo, hi)`, each a field element
  whose representative is below `2 ^ 128` (the invariant `Word.wf`).
* Python exceptions are modelled by `Except Failure`.  A Python statement
  `assert cond, X` raises `AssertionError(X)` when `cond` is false, which we model
  as `Failure.assertionError m` where `m` is the message text of `X` (for the
  constrain helpers `X` is a `ConstraintUnsatFailure` object used as the assert
  message; the exception actually raised is still `AssertionError`).  Code that
  executes `raise ConstraintUnsatFailure(m)` is modelled as
  `Failure.constraintUnsat m`.  A failed table lookup is `Failure.lookupAbsent`.
* The lookup tables are external collaborators; a table is a parameter
  `tbl : RWLookupQuery → Option RWTableRow` returning the unique matching row of
  the committed RW table, or `none` (which aborts the step).
-/

deriving instance DecidableEq for Except

namespace ZkevmSpecs

/-- Modelled from the spec: the scalar field.  `util.FQ` (module not under `src/`)
is "an integer modulo a large prime"; we use the BN254 scalar-field order. -/
def P : ℕ := 21888242871839275222246405745257275088548364400416034343698204186575808495617

/-- The `FQ(x)` constructor: reduce an integer into the field. -/
def fq (x : ℕ) : ℕ := x % P

/-- Field addition on canonical representatives. -/
def fadd (x y : ℕ) : ℕ := (x + y) % P

/-- Field subtraction on canonical representatives. -/
def fsub (x y : ℕ) : ℕ := (x + (P - y % P)) % P

/-- Field multiplication on canonical representatives. -/
def fmul (x y : ℕ) : ℕ := (x * y) % P

/-- The inverse of `2 ^ 128` in the field: Python `FQ` division by `2 ** 128`
(used for the carries of `mul_add_words`) is multiplication by this constant. -/
def INV2POW128 : ℕ := 8680525429001239497728366687280168587232520577698044359798894838135247199343

/-- Modelled from the spec (`util` is not under `src/`): `MAX_N_BYTES = 31`,
the largest number of bytes guaranteed to fit in a field element. -/
def MAX_N_BYTES : ℕ := 31

/-- Modelled from the spec: a 256-bit word as two 128-bit limbs `(lo, hi)`. -/
structure Word where
  lo : ℕ
  hi : ℕ
deriving DecidableEq

/-- The well-formedness invariant of a word: both limbs are 128-bit. -/
def Word.wf (w : Word) : Prop := w.lo < 2 ^ 128 ∧ w.hi < 2 ^ 128

/-- The 256-bit unsigned integer a word represents. -/
def Word.intValue (w : Word) : ℕ := w.lo + 2 ^ 128 * w.hi

/-- The Python `Word(n)` constructor for `n < 2 ^ 256`: split into two limbs. -/
def Word.ofInt (n : ℕ) : Word := ⟨n % 2 ^ 128, n / 2 ^ 128⟩

/-- `Word.to_lo_hi`. -/
def Word.toLoHi (w : Word) : ℕ × ℕ := (w.lo, w.hi)

/-- Modelled from the spec: the "four 64-bit limbs" view (`Word.to_64s`),
little-endian. -/
def Word.to64s (w : Word) : ℕ × ℕ × ℕ × ℕ :=
  (w.lo % 2 ^ 64, w.lo / 2 ^ 64, w.hi % 2 ^ 64, w.hi / 2 ^ 64)

/-- Modelled from the spec (`execution_state.py` is not under `src/`): the
execution-state tag.  Besides the lifecycle states `BeginTx`/`EndTx`/`EndBlock`
there are per-opcode states; for the transition rules only whether a state is
halting (and whether it halts in success) matters, so the remaining states are
represented by three representatives. -/
inductive ExecutionState where
  | BeginTx
  | EndTx
  | EndBlock
  | HaltSuccess
  | HaltFailure
  | Ordinary
deriving DecidableEq, Fintype

/-- Modelled from the spec: `ExecutionState.halts()` — the halting states. -/
def ExecutionState.halts : ExecutionState → Bool
  | .HaltSuccess => true
  | .HaltFailure => true
  | _ => false

/-- Modelled from the spec: `ExecutionState.halts_in_success()`. -/
def ExecutionState.haltsInSuccess : ExecutionState → Bool
  | .HaltSuccess => true
  | _ => false

/-- The exceptions the instruction library can raise. -/
inductive Failure where
  | assertionError (message : String)
  | constraintUnsat (message : String)
  | lookupAbsent (message : String)
deriving DecidableEq

/-- Discriminator: is the failure a `ConstraintUnsatFailure`? -/
def Failure.isConstraintUnsat : Failure → Bool
  | .constraintUnsat _ => true
  | _ => false

/-- Message of `constrain_zero`. -/
def expectedZeroMsg (v : ℕ) : String :=
  "Expected value to be 0, but got " ++ toString v

/-- Message of `constrain_not_zero`. -/
def expectedNotZeroMsg (v : ℕ) : String :=
  "Expected value to be != 0, but got " ++ toString v

/-- Message of `constrain_equal`. -/
def expectedEqualMsg (l r : ℕ) : String :=
  "Expected values to be equal, but got " ++ toString l ++ " and " ++ toString r

/-- Message of `constrain_in`. -/
def expectedInMsg (l : ℕ) : String :=
  "Expected value to be in the given list, but got " ++ toString l

/-- Message of `constrain_bool`. -/
def expectedBoolMsg (v : ℕ) : String :=
  "Expected value to be a bool, but got " ++ toString v

/-- Message of the `ConstraintUnsatFailure` raised by `range_check`. -/
def rangeCheckMsg (v n : ℕ) : String :=
  "Value " ++ toString v ++ " has too many bytes to fit " ++ toString n ++ " bytes"

/-- `Instruction.constrain_zero` (a Python `assert` whose message is a
`ConstraintUnsatFailure`; the exception raised is `AssertionError`). -/
def constrain_zero (value : ℕ) : Except Failure Unit :=
  if value = 0 then .ok () else .error (.assertionError (expectedZeroMsg value))

/-- `Instruction.constrain_not_zero`. -/
def constrain_not_zero (value : ℕ) : Except Failure Unit :=
  if value ≠ 0 then .ok () else .error (.assertionError (expectedNotZeroMsg value))

/-- `Instruction.constrain_equal`. -/
def constrain_equal (lhs rhs : ℕ) : Except Failure Unit :=
  if lhs = rhs then .ok () else .error (.assertionError (expectedEqualMsg lhs rhs))

/-- `Instruction.constrain_in`: membership in an explicit list. -/
def constrain_in (lhs : ℕ) (rhs : List ℕ) : Except Failure Unit :=
  if lhs ∈ rhs then .ok () else .error (.assertionError (expectedInMsg lhs))

/-- `Instruction.constrain_bool`. -/
def constrain_bool (num : ℕ) : Except Failure Unit :=
  if num = 0 ∨ num = 1 then .ok () else .error (.assertionError (expectedBoolMsg num))

/-- `Instruction.range_check`: the leading `assert n_bytes <= MAX_N_BYTES` raises
`AssertionError` with a plain message; the `to_bytes` overflow is re-raised as a
`ConstraintUnsatFailure`.  Returns `()` instead of the byte string. -/
def range_check (value : ℕ) (n_bytes : ℕ) : Except Failure Unit :=
  if ¬ n_bytes ≤ MAX_N_BYTES then
    .error (.assertionError "Too many bytes to composite an integer in field")
  else if value < 256 ^ n_bytes then .ok ()
  else .error (.constraintUnsat (rangeCheckMsg value n_bytes))

/-- `Instruction.constrain_execution_state_transition`: the execution-state
legality automaton (the bare Python `assert`s raise `AssertionError`). -/
def constrain_execution_state_transition (curr next : ExecutionState) :
    Except Failure Unit := do
  if curr = .EndTx then
    unless next = .BeginTx ∨ next = .EndBlock do throw (.assertionError "")
  else if curr = .EndBlock then
    unless next = .EndBlock do throw (.assertionError "")
  if next = .BeginTx then
    unless curr = .EndTx do throw (.assertionError "")
  else if next = .EndTx then
    unless curr.halts = true ∨ curr = .BeginTx do throw (.assertionError "")
  else if next = .EndBlock then
    unless curr = .EndTx ∨ curr = .EndBlock do throw (.assertionError "")

/-- Modelled from the spec (`util` constant): memory word count fits 4 bytes. -/
def N_BYTES_MEMORY_SIZE : ℕ := 4

/-- Modelled from the spec (`util` constant): gas quantities fit 8 bytes. -/
def N_BYTES_GAS : ℕ := 8

/-- `Instruction.compare` (named `compareN` here; `compare` clashes with core):
both operands must fit `n_bytes` bytes, returns `(is_lt, is_eq)` as 0/1. -/
def compareN (lhs rhs n_bytes : ℕ) : Except Failure (ℕ × ℕ) :=
  if ¬ n_bytes ≤ MAX_N_BYTES then
    .error (.assertionError "Too many bytes to composite an integer in field")
  else if ¬ lhs < 256 ^ n_bytes then
    .error (.assertionError "lhs exceeds the range")
  else if ¬ rhs < 256 ^ n_bytes then
    .error (.assertionError "rhs exceeds the range")
  else .ok (if lhs < rhs then 1 else 0, if lhs = rhs then 1 else 0)

/-- `Instruction.compare_word`: high limbs first, then low limbs,
`lt = hi_lt + hi_eq * lo_lt`, `eq = hi_eq * lo_eq`. -/
def compare_word (lhs rhs : Word) : Except Failure (ℕ × ℕ) := do
  let (hi_lt, hi_eq) ← compareN lhs.hi rhs.hi 16
  let (lo_lt, lo_eq) ← compareN lhs.lo rhs.lo 16
  .ok (fadd hi_lt (fmul hi_eq lo_lt), fmul hi_eq lo_eq)

/-- `Instruction.is_neg_word`: `compare(0x7fff…ff, word.hi, 16)[0]`. -/
def is_neg_word (w : Word) : Except Failure ℕ := do
  let (lt, _) ← compareN (2 ^ 127 - 1) w.hi 16
  .ok lt

/-- `Instruction.select`: condition must already be a checked bool. -/
def select (condition when_true when_false : ℕ) : Except Failure ℕ :=
  if condition = 0 ∨ condition = 1 then
    .ok (if condition = 1 then when_true else when_false)
  else .error (.assertionError "Condition of select should be a checked bool")

/-- `Instruction.max` (named `maxN` here; `max` clashes with core). -/
def maxN (lhs rhs n_bytes : ℕ) : Except Failure ℕ := do
  let (lt, _) ← compareN lhs rhs n_bytes
  select lt rhs lhs

/-- `Instruction.constant_divmod`: divmod on canonical representatives, with the
quotient range-checked to `n_bytes`. -/
def constant_divmod (numerator denominator n_bytes : ℕ) :
    Except Failure (ℕ × ℕ) := do
  let quotient := numerator / denominator
  let remainder := numerator % denominator
  let _ ← range_check (fq quotient) n_bytes
  .ok (fq quotient, fq remainder)

/-- `Instruction.memory_gas_cost`:
`floor(memory_size^2 / 512) + 3 * memory_size` (the quadratic denominator
`MEMORY_EXPANSION_QUAD_DENOMINATOR = 512` and linear coefficient
`MEMORY_EXPANSION_LINEAR_COEFF = 3` are the spec's fixed constants). -/
def memory_gas_cost (memory_size : ℕ) : Except Failure ℕ := do
  let (quadratic_cost, _) ← constant_divmod (fmul memory_size memory_size) 512 N_BYTES_GAS
  .ok (fadd quadratic_cost (fmul memory_size 3))

/-- `Instruction.memory_expansion` with `curr_memory_word_size` standing for
`self.curr.memory_word_size`. -/
def memory_expansion (curr_memory_word_size offset length : ℕ) :
    Except Failure (ℕ × ℕ) := do
  let (memory_size, _) ←
    constant_divmod (fadd (fadd length offset) 31) 32 N_BYTES_MEMORY_SIZE
  let next_memory_size ← maxN curr_memory_word_size memory_size N_BYTES_MEMORY_SIZE
  let gas_curr ← memory_gas_cost curr_memory_word_size
  let gas_next ← memory_gas_cost next_memory_size
  .ok (next_memory_size, fsub gas_next gas_curr)

/-- Modelled from the spec (`util.add_words`, not under `src/`): sum words
limb-wise with 128-bit carry propagation, returning the sum modulo `2 ^ 256`
and the final carry-out. -/
def add_words (addends : List Word) : Word × ℕ :=
  let sum_lo := (addends.map Word.lo).sum
  let carry_lo := sum_lo / 2 ^ 128
  let sum_hi := (addends.map Word.hi).sum + carry_lo
  (⟨sum_lo % 2 ^ 128, sum_hi % 2 ^ 128⟩, sum_hi / 2 ^ 128)

/-- `Instruction.sub_word`: limb subtraction with borrow propagation (the limb
arithmetic is field arithmetic; the borrow tests compare representatives). -/
def sub_word (minuend subtrahend : Word) : Word × ℕ :=
  let borrow_lo : ℕ := if minuend.lo < subtrahend.lo then 1 else 0
  let diff_lo := fadd (fsub minuend.lo subtrahend.lo)
    (if minuend.lo < subtrahend.lo then 2 ^ 128 else 0)
  let borrow_hi : ℕ := if minuend.hi < subtrahend.hi + borrow_lo then 1 else 0
  let diff_hi := fadd (fsub (fsub minuend.hi subtrahend.hi) borrow_lo)
    (if minuend.hi < subtrahend.hi + borrow_lo then 2 ^ 128 else 0)
  (⟨diff_lo, diff_hi⟩, borrow_hi)

/-- `Instruction.abs_word`: witnesses `|x|` and constrains it (if non-negative
the witness equals the input; if negative `x + |x| = 2 ^ 256` via limb carries,
forcing both remainder limbs to 0 and the final carry to 1). -/
def abs_word (x : Word) : Except Failure (Word × ℕ) := do
  let is_neg ← is_neg_word x
  let x_abs := if is_neg = 0 then x else Word.ofInt (2 ^ 256 - x.intValue)
  let _ ← constrain_zero (fmul (fsub x_abs.lo x.lo) (fsub 1 is_neg))
  let _ ← constrain_zero (fmul (fsub x_abs.hi x.hi) (fsub 1 is_neg))
  let carry_lo := (x.lo + x_abs.lo) / 2 ^ 128
  let sum_lo := (x.lo + x_abs.lo) % 2 ^ 128
  let carry_hi := (x.hi + x_abs.hi + carry_lo) / 2 ^ 128
  let sum_hi := (x.hi + x_abs.hi + carry_lo) % 2 ^ 128
  let _ ← constrain_zero
    (fsub (fadd (fq sum_lo) (fmul (fq carry_lo) (fq (2 ^ 128)))) (fadd x.lo x_abs.lo))
  let _ ← constrain_zero
    (fsub (fsub (fadd (fq sum_hi) (fmul (fq carry_hi) (fq (2 ^ 128)))) (fq carry_lo))
      (fadd x.hi x_abs.hi))
  let _ ← constrain_zero (fmul (fq (sum_lo + sum_hi)) is_neg)
  let _ ← constrain_zero (fmul (fsub 1 carry_hi) is_neg)
  .ok (x_abs, is_neg)

/-- `Instruction.mul_add_words`: 4×4 64-bit-limb schoolbook cross terms
`t0..t3`, two carries range-checked to 9 bytes, constrains
`a*b + c ≡ d (mod 2^256)` and returns the overflow field element.  The source's
field division by `2 ** 128` is multiplication by `INV2POW128`. -/
def mul_add_words (a b c d : Word) : Except Failure ℕ :=
  let (a0, a1, a2, a3) := a.to64s
  let (b0, b1, b2, b3) := b.to64s
  let t0 := fmul a0 b0
  let t1 := fadd (fmul a0 b1) (fmul a1 b0)
  let t2 := fadd (fadd (fmul a0 b2) (fmul a1 b1)) (fmul a2 b0)
  let t3 := fadd (fadd (fadd (fmul a0 b3) (fmul a1 b2)) (fmul a2 b1)) (fmul a3 b0)
  let carry_lo := fmul (fsub (fadd (fadd t0 (fmul t1 (2 ^ 64))) c.lo) d.lo) INV2POW128
  let carry_hi :=
    fmul (fsub (fadd (fadd (fadd t2 (fmul t3 (2 ^ 64))) c.hi) carry_lo) d.hi) INV2POW128
  let overflow :=
    fadd (fadd (fadd (fadd (fadd (fadd carry_hi (fmul a1 b3)) (fmul a2 b2))
      (fmul a3 b1)) (fmul a2 b3)) (fmul a3 b2)) (fmul a3 b3)
  do
    let _ ← range_check carry_lo 9
    let _ ← range_check carry_hi 9
    let _ ← constrain_equal (fadd (fadd t0 (fmul t1 (2 ^ 64))) c.lo)
      (fadd d.lo (fmul carry_lo (2 ^ 128)))
    let _ ← constrain_equal (fadd (fadd (fadd t2 (fmul t3 (2 ^ 64))) c.hi) carry_lo)
      (fadd d.hi (fmul carry_hi (2 ^ 128)))
    .ok overflow

/-! ### Lookup mediation and step-state machinery -/

/-! Modelled from the spec (`table.py` not under `src/`): the RW-table tags
consumed here, as distinct numerals. -/

namespace RWTableTag

def Start : ℕ := 1
def TxAccessListAccount : ℕ := 2
def TxAccessListAccountStorage : ℕ := 3
def TxRefund : ℕ := 4
def Account : ℕ := 5
def AccountStorage : ℕ := 6
def CallContext : ℕ := 7
def Stack : ℕ := 8
def Memory : ℕ := 9

/-- Modelled from the spec: the tags whose writes may need a reversion mirror
row (`RWTableTag.write_with_reversion`). -/
def write_with_reversion (tag : ℕ) : Bool :=
  [TxAccessListAccount, TxAccessListAccountStorage, TxRefund, Account,
    AccountStorage].contains tag

end RWTableTag

/-! Modelled from the spec (`table.py` not under `src/`): the call-context
field tags used here, as distinct numerals. -/

namespace CallContextFieldTag

def RwCounterEndOfReversion : ℕ := 1
def IsPersistent : ℕ := 2
def CallerId : ℕ := 3
def LastCalleeId : ℕ := 15
def LastCalleeReturnDataOffset : ℕ := 16
def LastCalleeReturnDataLength : ℕ := 17
def IsRoot : ℕ := 18
def IsCreate : ℕ := 19
def CodeHash : ℕ := 20
def ProgramCounter : ℕ := 21
def StackPointer : ℕ := 22
def GasLeft : ℕ := 23
def MemorySize : ℕ := 24
def ReversibleWriteCounter : ℕ := 25

end CallContextFieldTag

/-- A row of the RW table (the table's query contract returns `value`,
`value_prev`, `aux0` and echoes the key fields). -/
structure RWTableRow where
  id : ℕ
  address : ℕ
  field_tag : ℕ
  storage_key : Word
  value : Word
  value_prev : Word
  aux0 : Word
deriving DecidableEq

/-- A junk default row (only used under an `Option.getD` whose `none` branch is
ruled out by a success hypothesis). -/
def defaultRow : RWTableRow := ⟨0, 0, 0, ⟨0, 0⟩, ⟨0, 0⟩, ⟨0, 0⟩, ⟨0, 0⟩⟩

/-- A query against the RW table: `rw_counter`, read/write flag (`true` is a
write), tag, and the optional key/value fields (`none` is a wildcard).  A word
value standing for a plain `WordOrValue` expression has its scalar in `lo`. -/
structure RWLookupQuery where
  rw_counter : ℕ
  rw : Bool
  tag : ℕ
  id : Option ℕ
  address : Option ℕ
  field_tag : Option ℕ
  storage_key : Option Word
  value : Option Word
  value_prev : Option Word
  aux0 : Option Word
deriving DecidableEq

/-- Modelled from the spec (`step.py` not under `src/`): the machine state at
one execution step. -/
structure StepState where
  execution_state : ExecutionState
  rw_counter : ℕ
  call_id : ℕ
  is_root : ℕ
  is_create : ℕ
  code_hash : Word
  program_counter : ℕ
  stack_pointer : ℕ
  gas_left : ℕ
  memory_word_size : ℕ
  reversible_write_counter : ℕ
  log_id : ℕ
deriving DecidableEq

/-- The per-step mutable state of `Instruction`: the rw-counter cursor offset,
plus (as pure instrumentation of the embedding) the log of the RW-table queries
issued so far, in order. -/
structure IState where
  rw_counter_offset : ℕ
  queries : List RWLookupQuery
deriving DecidableEq

/-- The type of the external RW table: the unique matching row, or `none`. -/
abbrev RWTable := RWLookupQuery → Option RWTableRow

/-- `Tables.rw_lookup`: consult the external table; no matching row aborts the
step.  The query is recorded in the instrumentation log. -/
def tables_rw_lookup (tbl : RWTable) (q : RWLookupQuery) (st : IState) :
    Except Failure (RWTableRow × IState) :=
  match tbl q with
  | some row => .ok (row, ⟨st.rw_counter_offset, st.queries ++ [q]⟩)
  | none => .error (.lookupAbsent "no matching RW row")

/-- `Instruction.rw_lookup`: when no explicit `rw_counter` is supplied, use
`curr.rw_counter + rw_counter_offset` and advance the offset. -/
def rw_lookup (tbl : RWTable) (curr : StepState) (rw : Bool) (tag : ℕ)
    (id address field_tag : Option ℕ) (storage_key value value_prev aux0 : Option Word)
    (rw_counter : Option ℕ) (st : IState) : Except Failure (RWTableRow × IState) :=
  match rw_counter with
  | some rc =>
      tables_rw_lookup tbl
        ⟨rc, rw, tag, id, address, field_tag, storage_key, value, value_prev, aux0⟩ st
  | none =>
      tables_rw_lookup tbl
        ⟨fadd curr.rw_counter st.rw_counter_offset, rw, tag, id, address, field_tag,
          storage_key, value, value_prev, aux0⟩
        ⟨st.rw_counter_offset + 1, st.queries⟩

/-- `ReversionInfo` (three field elements; `rw_counter_of_reversion` consumes
one reversion slot). -/
structure ReversionInfo where
  rw_counter_end_of_reversion : ℕ
  is_persistent : ℕ
  reversible_write_counter : ℕ
deriving DecidableEq

/-- `ReversionInfo.rw_counter_of_reversion`: returns
`rw_counter_end_of_reversion - reversible_write_counter`, then increments the
counter (returned here as the updated record). -/
def ReversionInfo.rw_counter_of_reversion (ri : ReversionInfo) : ℕ × ReversionInfo :=
  (fsub ri.rw_counter_end_of_reversion ri.reversible_write_counter,
    ⟨ri.rw_counter_end_of_reversion, ri.is_persistent, fadd ri.reversible_write_counter 1⟩)

/-- `Instruction.state_write`: the primary write, then — when a reversion info
is supplied and the call is not persistent — the mirror write at the reversion
counter with `value` and `value_prev` swapped.  The updated reversion info is
returned alongside the row (Python mutates it in place). -/
def state_write (tbl : RWTable) (curr : StepState) (tag : ℕ)
    (id address field_tag : Option ℕ) (storage_key value value_prev aux0 : Option Word)
    (reversion_info : Option ReversionInfo) (st : IState) :
    Except Failure ((RWTableRow × Option ReversionInfo) × IState) := do
  if ¬ RWTableTag.write_with_reversion tag = true then
    throw (.assertionError "")
  else
    let (row, st) ←
      rw_lookup tbl curr true tag id address field_tag storage_key value value_prev
        aux0 none st
    match reversion_info with
    | some ri =>
        if ri.is_persistent = 0 then
          let (rc, ri') := ri.rw_counter_of_reversion
          let (_, st) ← tables_rw_lookup tbl
            ⟨rc, true, tag, some row.id, some row.address, some row.field_tag,
              some row.storage_key, some row.value_prev, some row.value,
              some row.aux0⟩ st
          pure ((row, some ri'), st)
        else
          pure ((row, some ri), st)
    | none => pure ((row, none), st)

/-- `Instruction.call_context_lookup_word`: an RW lookup on the `CallContext`
tag (the field tag travels in the `address` slot). -/
def call_context_lookup_word (tbl : RWTable) (curr : StepState) (field_tag : ℕ)
    (rw : Bool) (call_id : Option ℕ) (st : IState) :
    Except Failure (Word × IState) := do
  let cid := call_id.getD curr.call_id
  let (row, st) ←
    rw_lookup tbl curr rw RWTableTag.CallContext (some cid) (some field_tag)
      none none none none none none st
  pure (row.value, st)

/-- `Instruction.call_context_lookup`: the scalar view of the word read. -/
def call_context_lookup (tbl : RWTable) (curr : StepState) (field_tag : ℕ)
    (rw : Bool) (call_id : Option ℕ) (st : IState) :
    Except Failure (ℕ × IState) := do
  let (w, st) ← call_context_lookup_word tbl curr field_tag rw call_id st
  pure (w.lo, st)

/-- `Instruction.account_read_word`: RW read on the `Account` tag keyed by
address and account field tag; returns the value read. -/
def account_read_word (tbl : RWTable) (curr : StepState)
    (account_address account_field_tag : ℕ) (st : IState) :
    Except Failure (Word × IState) := do
  let (row, st) ←
    rw_lookup tbl curr false RWTableTag.Account none (some account_address)
      (some account_field_tag) none none none none none st
  pure (row.value, st)

/-- `Instruction.account_read`: evaluates the looked-up value and discards it;
the Python body has no `return`, so despite the declared `Expression` return
type it returns `None` (modelled as `none`). -/
def account_read (tbl : RWTable) (curr : StepState)
    (account_address account_field_tag : ℕ) (st : IState) :
    Except Failure (Option ℕ × IState) := do
  let (_, st) ← account_read_word tbl curr account_address account_field_tag st
  pure (none, st)

/-- The transition kinds of `constrain_step_state_transition`. -/
inductive Transition where
  | same
  | sameWord
  | delta (v : ℕ)
  | to (v : ℕ)
  | toWord (v : Word)
deriving DecidableEq

/-- Check one scalar field's declared transition (`none`: field unconstrained).
A word-kind transition on a scalar field would crash Python's casts; it aborts
here too. -/
def check_scalar_transition (curr next : ℕ) : Option Transition → Except Failure Unit
  | none => .ok ()
  | some .same =>
      if next = curr then .ok () else .error (.assertionError "State should be same")
  | some (.delta v) =>
      if next = fadd curr v then .ok ()
      else .error (.assertionError "State should transit by delta")
  | some (.to v) =>
      if next = v then .ok ()
      else .error (.assertionError "State should transit to value")
  | some .sameWord => .error (.assertionError "word transition on scalar state")
  | some (.toWord _) => .error (.assertionError "word transition on scalar state")

/-- Check the word field's declared transition. -/
def check_word_transition (curr next : Word) : Option Transition → Except Failure Unit
  | none => .ok ()
  | some .sameWord =>
      if next.lo = curr.lo ∧ next.hi = curr.hi then .ok ()
      else .error (.assertionError "State should be same")
  | some (.toWord v) =>
      if next.lo = v.lo ∧ next.hi = v.hi then .ok ()
      else .error (.assertionError "State should transit to value")
  | some _ => .error (.assertionError "scalar transition on word state")

/-- `Instruction.constrain_step_state_transition` over the fixed, named field
set, each field checked against its (optional) declared transition. -/
def constrain_step_state_transition (curr next : StepState)
    (rw_counter call_id is_root is_create code_hash program_counter stack_pointer
      gas_left memory_word_size reversible_write_counter log_id : Option Transition) :
    Except Failure Unit := do
  let _ ← check_scalar_transition curr.rw_counter next.rw_counter rw_counter
  let _ ← check_scalar_transition curr.call_id next.call_id call_id
  let _ ← check_scalar_transition curr.is_root next.is_root is_root
  let _ ← check_scalar_transition curr.is_create next.is_create is_create
  let _ ← check_word_transition curr.code_hash next.code_hash code_hash
  let _ ← check_scalar_transition curr.program_counter next.program_counter program_counter
  let _ ← check_scalar_transition curr.stack_pointer next.stack_pointer stack_pointer
  let _ ← check_scalar_transition curr.gas_left next.gas_left gas_left
  let _ ← check_scalar_transition curr.memory_word_size next.memory_word_size memory_word_size
  let _ ← check_scalar_transition curr.reversible_write_counter
    next.reversible_write_counter reversible_write_counter
  check_scalar_transition curr.log_id next.log_id log_id

/-- `Instruction.step_state_transition_to_restored_context`: read the caller's
saved frame (looking the caller id up when not supplied), check the caller's
last-callee bookkeeping, add `11 + (1 if caller_id was looked up)` to the
rw-counter delta, refund the leftover gas, and propagate this call's
reversible-write counter only when it halts in success. -/
def step_state_transition_to_restored_context (tbl : RWTable) (curr next : StepState)
    (rw_counter_delta : ℕ) (return_data_offset return_data_length gas_left : ℕ)
    (caller_id : Option ℕ) (st : IState) : Except Failure (Unit × IState) := do
  let delta := rw_counter_delta + 11 + (if caller_id.isNone then 1 else 0)
  let (cid, st) ←
    match caller_id with
    | some c => pure ((c, st) : ℕ × IState)
    | none => call_context_lookup tbl curr CallContextFieldTag.CallerId false none st
  let (caller_is_root, st) ←
    call_context_lookup_word tbl curr CallContextFieldTag.IsRoot false (some cid) st
  let (caller_is_create, st) ←
    call_context_lookup_word tbl curr CallContextFieldTag.IsCreate false (some cid) st
  let (caller_code_hash, st) ←
    call_context_lookup_word tbl curr CallContextFieldTag.CodeHash false (some cid) st
  let (caller_program_counter, st) ←
    call_context_lookup_word tbl curr CallContextFieldTag.ProgramCounter false (some cid) st
  let (caller_stack_pointer, st) ←
    call_context_lookup_word tbl curr CallContextFieldTag.StackPointer false (some cid) st
  let (caller_gas_left, st) ←
    call_context_lookup_word tbl curr CallContextFieldTag.GasLeft false (some cid) st
  let (caller_memory_size, st) ←
    call_context_lookup_word tbl curr CallContextFieldTag.MemorySize false (some cid) st
  let (caller_reversible_write_counter, st) ←
    call_context_lookup_word tbl curr CallContextFieldTag.ReversibleWriteCounter false
      (some cid) st
  let (v1, st) ←
    call_context_lookup tbl curr CallContextFieldTag.LastCalleeId true (some cid) st
  let _ ← constrain_equal v1 curr.call_id
  let (v2, st) ←
    call_context_lookup tbl curr CallContextFieldTag.LastCalleeReturnDataOffset true
      (some cid) st
  let _ ← constrain_equal v2 return_data_offset
  let (v3, st) ←
    call_context_lookup tbl curr CallContextFieldTag.LastCalleeReturnDataLength true
      (some cid) st
  let _ ← constrain_equal v3 return_data_length
  let reversible_write_counter :=
    if curr.execution_state.haltsInSuccess = true then curr.reversible_write_counter
    else 0
  let _ ← constrain_step_state_transition curr next
    (some (.delta delta)) (some (.to cid)) (some (.to caller_is_root.lo))
    (some (.to caller_is_create.lo)) (some (.toWord caller_code_hash))
    (some (.to caller_program_counter.lo)) (some (.to caller_stack_pointer.lo))
    (some (.to (fadd caller_gas_left.lo gas_left)))
    (some (.to caller_memory_size.lo))
    (some (.to (fadd caller_reversible_write_counter.lo reversible_write_counter)))
    none
  pure ((), st)

/-- The query `step_state_transition_to_restored_context` issues for the
caller-context field `field_tag`, the `i`-th lookup of the step. -/
def restored_ctx_query (curr : StepState) (off : ℕ) (cid : ℕ) (field_tag i : ℕ) :
    RWLookupQuery :=
  ⟨fadd curr.rw_counter (off + i), false, RWTableTag.CallContext, some cid,
    some field_tag, none, none, none, none, none⟩

/-- The caller id `step_state_transition_to_restored_context` restores: the
supplied one, or the one read from the `CallerId` call-context row. -/
def resolved_caller_id (tbl : RWTable) (curr : StepState) (off : ℕ)
    (caller_id : Option ℕ) : ℕ :=
  match caller_id with
  | some c => c
  | none =>
      ((tbl ⟨fadd curr.rw_counter off, false, RWTableTag.CallContext,
        some curr.call_id, some CallContextFieldTag.CallerId, none, none, none,
        none, none⟩).getD defaultRow).value.lo

/-- The caller's saved `GasLeft` as read by
`step_state_transition_to_restored_context` (its sixth caller-frame lookup). -/
def caller_gas_left_read (tbl : RWTable) (curr : StepState) (off : ℕ)
    (caller_id : Option ℕ) : ℕ :=
  let base := if caller_id.isNone then 1 else 0
  ((tbl (restored_ctx_query curr off (resolved_caller_id tbl curr off caller_id)
    CallContextFieldTag.GasLeft (base + 5))).getD defaultRow).value.lo

/-- The caller's saved `ReversibleWriteCounter` as read by
`step_state_transition_to_restored_context` (its eighth caller-frame lookup). -/
def caller_rwc_read (tbl : RWTable) (curr : StepState) (off : ℕ)
    (caller_id : Option ℕ) : ℕ :=
  let base := if caller_id.isNone then 1 else 0
  ((tbl (restored_ctx_query curr off (resolved_caller_id tbl curr off caller_id)
    CallContextFieldTag.ReversibleWriteCounter (base + 7))).getD defaultRow).value.lo

/-- The query `account_read` / `account_read_word` issues: a read on the
`Account` tag keyed by address and account field tag, at the current cursor. -/
def account_read_query (curr : StepState) (account_address account_field_tag off : ℕ) :
    RWLookupQuery :=
  ⟨fadd curr.rw_counter off, false, RWTableTag.Account, none, some account_address,
    some account_field_tag, none, none, none, none⟩

/-! ### Concrete tables and step states used to instantiate the lookup
theorems on closed inputs -/

/-- A concrete current step state. -/
def exCurr : StepState := ⟨.EndTx, 9, 1, 1, 0, ⟨0, 0⟩, 0, 1024, 100, 0, 2, 0⟩

/-- A concrete RW row for the account read. -/
def exAccountRow : RWTableRow := ⟨1, 5, 6, ⟨0, 0⟩, ⟨7, 8⟩, ⟨5, 0⟩, ⟨0, 0⟩⟩

/-- A concrete table holding exactly the account row `account_read` asks for. -/
def exAccountTbl : RWTable := fun q =>
  if q = account_read_query exCurr 5 6 0 then some exAccountRow else none

/-- The primary query `state_write` issues at cursor offset `off`. -/
def state_write_query (curr : StepState) (off tag : ℕ)
    (id address field_tag : Option ℕ) (storage_key value value_prev aux0 : Option Word) :
    RWLookupQuery :=
  ⟨fadd curr.rw_counter off, true, tag, id, address, field_tag, storage_key, value,
    value_prev, aux0⟩

/-- The mirror ("undo") query `state_write` issues at reversion counter `rc`:
the primary row with `value` and `value_prev` swapped. -/
def mirror_query (tag rc : ℕ) (row : RWTableRow) : RWLookupQuery :=
  ⟨rc, true, tag, some row.id, some row.address, some row.field_tag,
    some row.storage_key, some row.value_prev, some row.value, some row.aux0⟩

/-- A concrete RW row echoed by `exWriteTbl`. -/
def exWriteRow : RWTableRow := ⟨0, 0, 0, ⟨0, 0⟩, ⟨1, 0⟩, ⟨2, 0⟩, ⟨0, 0⟩⟩

/-- A concrete table answering every query with `exWriteRow`. -/
def exWriteTbl : RWTable := fun _ => some exWriteRow

/-- The four queries the two concrete reversible writes issue (primary at
rw-counters 9 and 10, mirrors at reversion counters 100 and 99). -/
def exQ1 : RWLookupQuery :=
  ⟨9, true, 4, none, none, none, none, some ⟨1, 0⟩, some ⟨2, 0⟩, none⟩

def exM1 : RWLookupQuery :=
  ⟨100, true, 4, some 0, some 0, some 0, some ⟨0, 0⟩, some ⟨2, 0⟩, some ⟨1, 0⟩,
    some ⟨0, 0⟩⟩

def exQ2 : RWLookupQuery :=
  ⟨10, true, 4, none, none, none, none, some ⟨1, 0⟩, some ⟨2, 0⟩, none⟩

def exM2 : RWLookupQuery :=
  ⟨99, true, 4, some 0, some 0, some 0, some ⟨0, 0⟩, some ⟨2, 0⟩, some ⟨1, 0⟩,
    some ⟨0, 0⟩⟩

/-- A concrete table answering every query with the all-zero row. -/
def exZeroTbl : RWTable := fun _ => some defaultRow

/-- A concrete halting-in-success current step for the restored-context
transition. -/
def exRcCurr : StepState := ⟨.HaltSuccess, 9, 0, 1, 0, ⟨0, 0⟩, 3, 1024, 100, 0, 2, 0⟩

/-- The matching next step: rw-counter advanced by 11, call id restored to 7,
caller frame all zero, gas refunded (0 + 5), reversible writes propagated
(0 + 2). -/
def exRcNext : StepState := ⟨.Ordinary, 20, 7, 0, 0, ⟨0, 0⟩, 0, 0, 5, 0, 2, 0⟩

/-- The `k`-th call-context query of the concrete restored-context step. -/
def exRcQ (ft k : ℕ) (rw : Bool) : RWLookupQuery :=
  ⟨9 + k, rw, 7, some 7, some ft, none, none, none, none, none⟩

/-! ## Helper lemmas -/

theorem P_gt_two_pow_201 : 2 ^ 201 < P := by decide

theorem lt_P {x : ℕ} (h : x < 2 ^ 201) : x < P := lt_trans h P_gt_two_pow_201

theorem fq_eq {x : ℕ} (h : x < P) : fq x = x := Nat.mod_eq_of_lt h

theorem fadd_eq {x y : ℕ} (h : x + y < P) : fadd x y = x + y := Nat.mod_eq_of_lt h

theorem fmul_eq {x y : ℕ} (h : x * y < P) : fmul x y = x * y := Nat.mod_eq_of_lt h

theorem fmul_zero_left (x : ℕ) : fmul 0 x = 0 := by simp [fmul]

theorem fmul_one_left {x : ℕ} (h : x < P) : fmul 1 x = x := by
  simpa [fmul] using Nat.mod_eq_of_lt h

theorem fadd_zero_left {x : ℕ} (h : x < P) : fadd 0 x = x := by
  simpa [fadd] using Nat.mod_eq_of_lt h

theorem fsub_eq_of_le {x y : ℕ} (hx : x < P) (hy : y ≤ x) : fsub x y = x - y := by
  unfold fsub
  rw [Nat.mod_eq_of_lt (lt_of_le_of_lt hy hx)]
  have h1 : x + (P - y) = P + (x - y) := by omega
  rw [h1, Nat.add_mod_left, Nat.mod_eq_of_lt (by omega)]

theorem fsub_eq_of_lt {x y : ℕ} (hxy : x < y) (hy : y < P) : fsub x y = P + x - y := by
  unfold fsub
  rw [Nat.mod_eq_of_lt hy, Nat.mod_eq_of_lt (by omega)]
  omega

theorem fsub_self {x : ℕ} (hx : x < P) : fsub x x = 0 := by
  rw [fsub_eq_of_le hx le_rfl]; omega

theorem fadd_zero_right {x : ℕ} (h : x < P) : fadd x 0 = x := by
  simpa [fadd] using Nat.mod_eq_of_lt h

theorem fsub_zero {x : ℕ} (h : x < P) : fsub x 0 = x := by
  unfold fsub
  rw [Nat.zero_mod, Nat.sub_zero, Nat.add_comm, Nat.add_mod_left, Nat.mod_eq_of_lt h]

theorem fadd_eq_of_ge {x y : ℕ} (h1 : P ≤ x + y) (h2 : x + y - P < P) :
    fadd x y = x + y - P := by
  unfold fadd
  have h3 : x + y = P + (x + y - P) := by omega
  rw [h3, Nat.add_mod_left, Nat.mod_eq_of_lt h2]
  omega

/-- Evaluation of `compareN` at 16 bytes on in-range operands. -/
theorem compareN_eval {l r : ℕ} (hl : l < 2 ^ 128) (hr : r < 2 ^ 128) :
    compareN l r 16 = .ok (if l < r then 1 else 0, if l = r then 1 else 0) := by
  have h256 : (256 : ℕ) ^ 16 = 2 ^ 128 := by norm_num
  have hl' : l < 256 ^ 16 := by rw [h256]; exact hl
  have hr' : r < 256 ^ 16 := by rw [h256]; exact hr
  unfold compareN
  rw [if_neg (by simp [MAX_N_BYTES]), if_neg (not_not_intro hl'),
    if_neg (not_not_intro hr')]

/-! ## C3: the execution-state legality automaton -/

/-- **C3** (confirmed): `constrain_execution_state_transition` accepts a
`(curr, next)` pair exactly under the five listed rules, and in particular
rejects `EndBlock → BeginTx`. -/
theorem execution_state_transition_rules :
    (∀ curr next : ExecutionState,
      constrain_execution_state_transition curr next = .ok () ↔
        ((curr = .EndTx → (next = .BeginTx ∨ next = .EndBlock)) ∧
         (curr = .EndBlock → next = .EndBlock) ∧
         (next = .BeginTx → curr = .EndTx) ∧
         (next = .EndTx → (curr.halts = true ∨ curr = .BeginTx)) ∧
         (next = .EndBlock → (curr = .EndTx ∨ curr = .EndBlock)))) ∧
    constrain_execution_state_transition .EndBlock .BeginTx ≠ .ok () := by
  decide

/-- Instance of C3: the `EndTx → EndBlock` transition is legal, and
`EndBlock → BeginTx` is rejected. -/
theorem execution_state_transition_rules_witness :
    constrain_execution_state_transition .EndTx .EndBlock = .ok () ∧
    constrain_execution_state_transition .EndBlock .BeginTx ≠ .ok () :=
  ⟨by decide, execution_state_transition_rules.2⟩

/-! ## C6: failure kinds of violated constraints -/

/-- **C6** (counterexample): the violated constraint `constrain_zero 1` raises
`AssertionError` (with a `ConstraintUnsatFailure` as its message object), not a
`ConstraintUnsatFailure` — so not every violated constraint surfaces as
`ConstraintUnsatisfied`. -/
theorem constrain_zero_raises_assertion_error :
    constrain_zero 1 = .error (.assertionError (expectedZeroMsg 1)) ∧
    Failure.isConstraintUnsat (.assertionError (expectedZeroMsg 1)) = false := by
  exact ⟨rfl, rfl⟩

/-- **C6** (amended): every violated constraint aborts the step with a failure
carrying a descriptive message, but of two kinds: the `constrain_*` primitives,
implemented with Python `assert`, raise `AssertionError` (whose message is the
`ConstraintUnsatFailure` text), while `range_check`'s byte-width overflow is
raised as `ConstraintUnsatFailure` itself. -/
theorem violated_constraints_abort :
    ∀ v w n : ℕ, ∀ l : List ℕ,
      (v ≠ 0 → constrain_zero v = .error (.assertionError (expectedZeroMsg v))) ∧
      (v = 0 → constrain_not_zero v = .error (.assertionError (expectedNotZeroMsg v))) ∧
      (v ≠ w → constrain_equal v w = .error (.assertionError (expectedEqualMsg v w))) ∧
      (¬ v ∈ l → constrain_in v l = .error (.assertionError (expectedInMsg v))) ∧
      (v ≠ 0 → v ≠ 1 → constrain_bool v = .error (.assertionError (expectedBoolMsg v))) ∧
      (n ≤ MAX_N_BYTES → 256 ^ n ≤ v →
        range_check v n = .error (.constraintUnsat (rangeCheckMsg v n))) := by
  intro v w n l
  refine ⟨fun h => ?_, fun h => ?_, fun h => ?_, fun h => ?_, fun h1 h2 => ?_,
    fun h1 h2 => ?_⟩
  · simp [constrain_zero, h]
  · simp [constrain_not_zero, h]
  · simp [constrain_equal, h]
  · simp [constrain_in, h]
  · simp [constrain_bool, h1, h2]
  · simp [range_check, h1, Nat.not_lt.mpr h2]

/-- Instances of C6's amended statement: each primitive violated at concrete
inputs, producing the stated failure kinds. -/
theorem violated_constraints_abort_witness :
    constrain_zero 1 = .error (.assertionError (expectedZeroMsg 1)) ∧
    constrain_not_zero 0 = .error (.assertionError (expectedNotZeroMsg 0)) ∧
    constrain_equal 1 2 = .error (.assertionError (expectedEqualMsg 1 2)) ∧
    constrain_in 1 [2, 3] = .error (.assertionError (expectedInMsg 1)) ∧
    constrain_bool 2 = .error (.assertionError (expectedBoolMsg 2)) ∧
    range_check 256 1 = .error (.constraintUnsat (rangeCheckMsg 256 1)) :=
  ⟨(violated_constraints_abort 1 0 0 []).1 (by decide),
   (violated_constraints_abort 0 0 0 []).2.1 rfl,
   (violated_constraints_abort 1 2 0 []).2.2.1 (by decide),
   (violated_constraints_abort 1 0 0 [2, 3]).2.2.2.1 (by decide),
   (violated_constraints_abort 2 0 0 []).2.2.2.2.1 (by decide) (by decide),
   (violated_constraints_abort 256 0 1 []).2.2.2.2.2 (by decide) (by decide)⟩

/-! ## C7: `compare_word` trichotomy -/

/-- **C7** (confirmed): on well-formed words, `compare_word` returns `(1,0)`
iff `a < b`, `(0,1)` iff `a = b`, and `(0,0)` iff `a > b` as 256-bit unsigned
integers (lexicographic, high limb first). -/
theorem compare_word_trichotomy :
    ∀ a b : Word, a.wf → b.wf →
      (compare_word a b = .ok (1, 0) ↔ a.intValue < b.intValue) ∧
      (compare_word a b = .ok (0, 1) ↔ a.intValue = b.intValue) ∧
      (compare_word a b = .ok (0, 0) ↔ b.intValue < a.intValue) := by
  rintro a b ⟨ha1, ha2⟩ ⟨hb1, hb2⟩
  have hP1 : (1 : ℕ) < P := lt_P (by norm_num)
  have hP0 : (0 : ℕ) < P := lt_P (by norm_num)
  have e : compare_word a b =
      .ok (fadd (if a.hi < b.hi then 1 else 0)
            (fmul (if a.hi = b.hi then 1 else 0) (if a.lo < b.lo then 1 else 0)),
          fmul (if a.hi = b.hi then 1 else 0) (if a.lo = b.lo then 1 else 0)) := by
    unfold compare_word
    rw [compareN_eval ha2 hb2, compareN_eval ha1 hb1]
    rfl
  rcases lt_trichotomy a.hi b.hi with h | h | h
  · rw [e, if_pos h, if_neg (Nat.ne_of_lt h), fmul_zero_left,
      fadd_eq (by omega), fmul_zero_left]
    refine ⟨?_, ?_, ?_⟩ <;> simp [Word.intValue, Prod.ext_iff] <;> omega
  · rw [e, if_neg (show ¬ a.hi < b.hi by omega), if_pos h,
      fmul_one_left (by split <;> omega), fmul_one_left (by split <;> omega),
      fadd_zero_left (by split <;> omega)]
    rcases lt_trichotomy a.lo b.lo with h2 | h2 | h2
    · rw [if_pos h2, if_neg (Nat.ne_of_lt h2)]
      refine ⟨?_, ?_, ?_⟩ <;> simp [Word.intValue, Prod.ext_iff] <;> omega
    · rw [if_neg (show ¬ a.lo < b.lo by omega), if_pos h2]
      refine ⟨?_, ?_, ?_⟩ <;> simp [Word.intValue, Prod.ext_iff] <;> omega
    · rw [if_neg (show ¬ a.lo < b.lo by omega), if_neg (show ¬ a.lo = b.lo by omega)]
      refine ⟨?_, ?_, ?_⟩ <;> simp [Word.intValue, Prod.ext_iff] <;> omega
  · rw [e, if_neg (show ¬ a.hi < b.hi by omega), if_neg (show ¬ a.hi = b.hi by omega),
      fmul_zero_left, fadd_zero_left hP0, fmul_zero_left]
    refine ⟨?_, ?_, ?_⟩ <;> simp [Word.intValue, Prod.ext_iff] <;> omega

/-- Instance of C7 at `a = (5, 0)`, `b = (7, 0)`. -/
theorem compare_word_trichotomy_witness :
    Word.wf ⟨5, 0⟩ ∧ Word.wf ⟨7, 0⟩ ∧ compare_word ⟨5, 0⟩ ⟨7, 0⟩ = .ok (1, 0) :=
  ⟨⟨by norm_num, by norm_num⟩, ⟨by norm_num, by norm_num⟩,
    (compare_word_trichotomy ⟨5, 0⟩ ⟨7, 0⟩ ⟨by norm_num, by norm_num⟩
      ⟨by norm_num, by norm_num⟩).1.mpr (by norm_num [Word.intValue])⟩

theorem except_bind_ok {ε α β : Type} (a : α) (f : α → Except ε β) :
    (Except.ok a >>= f) = f a := rfl

theorem except_bind_err {ε α β : Type} (e : ε) (f : α → Except ε β) :
    ((Except.error e : Except ε α) >>= f) = .error e := rfl

/-- General evaluation of `compareN` on in-range operands. -/
theorem compareN_eval_ok {l r n : ℕ} (hn : n ≤ 31) (hl : l < 256 ^ n) (hr : r < 256 ^ n) :
    compareN l r n = .ok (if l < r then 1 else 0, if l = r then 1 else 0) := by
  unfold compareN
  rw [if_neg (show ¬¬ n ≤ MAX_N_BYTES from not_not_intro (by simpa [MAX_N_BYTES] using hn)),
    if_neg (not_not_intro hl), if_neg (not_not_intro hr)]

/-- `compareN` rejects an out-of-range left operand. -/
theorem compareN_err_left {l r n : ℕ} (hn : n ≤ 31) (hl : ¬ l < 256 ^ n) :
    compareN l r n = .error (.assertionError "lhs exceeds the range") := by
  unfold compareN
  rw [if_neg (show ¬¬ n ≤ MAX_N_BYTES from not_not_intro (by simpa [MAX_N_BYTES] using hn)),
    if_pos hl]

/-- Evaluation of `maxN` at 4 bytes on in-range operands. -/
theorem maxN_eval {l r : ℕ} (hl : l < 256 ^ 4) (hr : r < 256 ^ 4) :
    maxN l r 4 = .ok (max l r) := by
  unfold maxN
  rw [compareN_eval_ok (by norm_num) hl hr]
  show select (if l < r then 1 else 0) r l = .ok (max l r)
  by_cases h : l < r
  · rw [if_pos h]
    simp [select, Nat.max_eq_right h.le]
  · rw [if_neg h]
    simp [select, Nat.max_eq_left (by omega : r ≤ l)]

/-- Evaluation of `constant_divmod`. -/
theorem constant_divmod_eval (x d n : ℕ) (hn : n ≤ 31) (hx : x < P) :
    constant_divmod x d n =
      if x / d < 256 ^ n then .ok (x / d, x % d)
      else .error (.constraintUnsat (rangeCheckMsg (x / d) n)) := by
  have hq : x / d < P := lt_of_le_of_lt (Nat.div_le_self x d) hx
  have hr : x % d < P := lt_of_le_of_lt (Nat.mod_le x d) hx
  simp only [constant_divmod, range_check, fq_eq hq, fq_eq hr]
  rw [if_neg (show ¬¬ n ≤ MAX_N_BYTES from not_not_intro (by simpa [MAX_N_BYTES] using hn))]
  by_cases h : x / d < 256 ^ n
  · rw [if_pos h, if_pos h]; rfl
  · rw [if_neg h, if_neg h]; rfl

/-- Evaluation of `memory_gas_cost` on a 32-bit word count. -/
theorem memory_gas_cost_eval (w : ℕ) (hw : w < 2 ^ 32) :
    memory_gas_cost w = .ok (w * w / 512 + 3 * w) := by
  have hww : w * w < 2 ^ 64 := by
    calc w * w < 2 ^ 32 * 2 ^ 32 := Nat.mul_lt_mul'' hw hw
    _ = 2 ^ 64 := by norm_num
  have hwwP : w * w < P := lt_P (by omega)
  have h3 : w * 3 < P := lt_P (by omega)
  simp only [memory_gas_cost, N_BYTES_GAS, fmul_eq hwwP, fmul_eq h3]
  rw [constant_divmod_eval _ _ _ (by norm_num) hwwP]
  rw [if_pos (show w * w / 512 < 256 ^ 8 by
    have := Nat.div_le_self (w * w) 512
    norm_num
    omega)]
  rw [except_bind_ok]
  show Except.ok (fadd (w * w / 512) (w * 3)) = _
  rw [fadd_eq (lt_P (by have := Nat.div_le_self (w * w) 512; omega))]
  rw [Nat.mul_comm w 3]

/-! ## C9: `add_words` / `sub_word` round trip -/

/-- Closed-form evaluation of `sub_word` on well-formed words. -/
theorem sub_word_eval (m s : Word) (hm : m.wf) (hs : s.wf) :
    sub_word m s =
      if m.lo < s.lo then
        (if m.hi < s.hi + 1 then
          (⟨m.lo + 2 ^ 128 - s.lo, m.hi + 2 ^ 128 - s.hi - 1⟩, 1)
        else (⟨m.lo + 2 ^ 128 - s.lo, m.hi - s.hi - 1⟩, 0))
      else
        (if m.hi < s.hi then (⟨m.lo - s.lo, m.hi + 2 ^ 128 - s.hi⟩, 1)
        else (⟨m.lo - s.lo, m.hi - s.hi⟩, 0)) := by
  obtain ⟨hm1, hm2⟩ := hm
  obtain ⟨hs1, hs2⟩ := hs
  have hP130 : (2 : ℕ) ^ 130 < P := lt_P (by norm_num)
  simp only [sub_word]
  by_cases h1 : m.lo < s.lo
  · simp only [if_pos h1]
    rw [show fsub m.lo s.lo = P + m.lo - s.lo from fsub_eq_of_lt h1 (by omega),
      show fadd (P + m.lo - s.lo) (2 ^ 128) = P + m.lo - s.lo + 2 ^ 128 - P from
        fadd_eq_of_ge (by omega) (by omega)]
    by_cases h2 : m.hi < s.hi + 1
    · simp only [if_pos h2]
      rcases Nat.lt_or_ge m.hi s.hi with h3 | h3
      · rw [show fsub m.hi s.hi = P + m.hi - s.hi from fsub_eq_of_lt h3 (by omega),
          show fsub (P + m.hi - s.hi) 1 = P + m.hi - s.hi - 1 from
            fsub_eq_of_le (by omega) (by omega),
          show fadd (P + m.hi - s.hi - 1) (2 ^ 128) =
              P + m.hi - s.hi - 1 + 2 ^ 128 - P from
            fadd_eq_of_ge (by omega) (by omega)]
        simp only [Prod.mk.injEq, Word.mk.injEq, and_true, true_and]
        omega
      · have h4 : m.hi = s.hi := by omega
        rw [h4, show fsub s.hi s.hi = 0 from fsub_self (by omega),
          show fsub 0 1 = P + 0 - 1 from fsub_eq_of_lt (by omega) (by omega),
          show fadd (P + 0 - 1) (2 ^ 128) = P + 0 - 1 + 2 ^ 128 - P from
            fadd_eq_of_ge (by omega) (by omega)]
        simp only [Prod.mk.injEq, Word.mk.injEq, and_true, true_and]
        omega
    · simp only [if_neg h2]
      rw [show fsub m.hi s.hi = m.hi - s.hi from fsub_eq_of_le (by omega) (by omega),
        show fsub (m.hi - s.hi) 1 = m.hi - s.hi - 1 from
          fsub_eq_of_le (by omega) (by omega),
        show fadd (m.hi - s.hi - 1) 0 = m.hi - s.hi - 1 from
          fadd_zero_right (by omega)]
      simp only [Prod.mk.injEq, Word.mk.injEq, and_true, true_and]
      omega
  · simp only [if_neg h1]
    rw [show fsub m.lo s.lo = m.lo - s.lo from fsub_eq_of_le (by omega) (by omega),
      show fadd (m.lo - s.lo) 0 = m.lo - s.lo from fadd_zero_right (by omega)]
    by_cases h2 : m.hi < s.hi + 0
    · simp only [if_pos h2]
      rw [if_pos (show m.hi < s.hi by omega),
        show fsub m.hi s.hi = P + m.hi - s.hi from fsub_eq_of_lt (by omega) (by omega),
        show fsub (P + m.hi - s.hi) 0 = P + m.hi - s.hi from fsub_zero (by omega),
        show fadd (P + m.hi - s.hi) (2 ^ 128) = P + m.hi - s.hi + 2 ^ 128 - P from
          fadd_eq_of_ge (by omega) (by omega)]
      simp only [Prod.mk.injEq, Word.mk.injEq, and_true, true_and]
      omega
    · simp only [if_neg h2]
      rw [if_neg (show ¬ m.hi < s.hi by omega),
        show fsub m.hi s.hi = m.hi - s.hi from fsub_eq_of_le (by omega) (by omega),
        show fsub (m.hi - s.hi) 0 = m.hi - s.hi from fsub_zero (by omega),
        show fadd (m.hi - s.hi) 0 = m.hi - s.hi from fadd_zero_right (by omega)]

/-- **C9** (confirmed): for well-formed `a`, `b`, the carry of `add_words [a,b]`
is 0 exactly when `a + b < 2^256` and 1 exactly when `a + b ≥ 2^256`, and when
`a + b < 2^256`, `sub_word` of the sum and `b` recovers `a` with zero borrow. -/
theorem add_sub_words_roundtrip :
    ∀ a b : Word, a.wf → b.wf →
      ((add_words [a, b]).2 = 0 ↔ a.intValue + b.intValue < 2 ^ 256) ∧
      ((add_words [a, b]).2 = 1 ↔ 2 ^ 256 ≤ a.intValue + b.intValue) ∧
      (a.intValue + b.intValue < 2 ^ 256 → sub_word (add_words [a, b]).1 b = (a, 0)) := by
  rintro ⟨alo, ahi⟩ ⟨blo, bhi⟩ ⟨ha1, ha2⟩ ⟨hb1, hb2⟩
  simp only [Word.wf] at *
  have e : add_words [⟨alo, ahi⟩, ⟨blo, bhi⟩] =
      (⟨(alo + blo) % 2 ^ 128, (ahi + bhi + (alo + blo) / 2 ^ 128) % 2 ^ 128⟩,
        (ahi + bhi + (alo + blo) / 2 ^ 128) / 2 ^ 128) := by
    simp [add_words]
  refine ⟨?_, ?_, ?_⟩
  · rw [e]; simp [Word.intValue]; omega
  · rw [e]; simp [Word.intValue]; omega
  · intro hlt
    simp only [Word.intValue] at hlt
    simp at hlt
    have e1 : (add_words [⟨alo, ahi⟩, ⟨blo, bhi⟩]).1 =
        ⟨(alo + blo) % 2 ^ 128, (ahi + bhi + (alo + blo) / 2 ^ 128) % 2 ^ 128⟩ := by
      rw [e]
    rw [e1, sub_word_eval _ _ ⟨Nat.mod_lt _ (by norm_num), Nat.mod_lt _ (by norm_num)⟩
      ⟨hb1, hb2⟩]
    by_cases hlo : alo + blo < 2 ^ 128
    · have d1 : (alo + blo) / 2 ^ 128 = 0 := Nat.div_eq_of_lt hlo
      have d2 : (alo + blo) % 2 ^ 128 = alo + blo := Nat.mod_eq_of_lt hlo
      have d3 : ahi + bhi < 2 ^ 128 := by omega
      have d4 : (ahi + bhi + 0) % 2 ^ 128 = ahi + bhi := by
        rw [Nat.add_zero]; exact Nat.mod_eq_of_lt d3
      rw [d1, d2, d4]
      rw [if_neg (show ¬ alo + blo < blo by omega),
        if_neg (show ¬ ahi + bhi < bhi by omega)]
      simp [Prod.ext_iff, Word.mk.injEq]
    · have d1 : (alo + blo) / 2 ^ 128 = 1 := by omega
      have d2 : (alo + blo) % 2 ^ 128 = alo + blo - 2 ^ 128 := by omega
      have d3 : ahi + bhi + 1 < 2 ^ 128 := by omega
      have d4 : (ahi + bhi + 1) % 2 ^ 128 = ahi + bhi + 1 := Nat.mod_eq_of_lt d3
      rw [d1, d2, d4]
      rw [if_pos (show alo + blo - 2 ^ 128 < blo by omega),
        if_neg (show ¬ ahi + bhi + 1 < bhi + 1 by omega)]
      simp [Prod.ext_iff, Word.mk.injEq]
      omega

/-- Instance of C9 at `a = (3, 1)`, `b = (2^128 - 1, 2)`. -/
theorem add_sub_words_roundtrip_witness :
    (add_words [⟨3, 1⟩, ⟨2 ^ 128 - 1, 2⟩]).2 = 0 ∧
    sub_word (add_words [⟨3, 1⟩, ⟨2 ^ 128 - 1, 2⟩]).1 ⟨2 ^ 128 - 1, 2⟩ = (⟨3, 1⟩, 0) :=
  ⟨(add_sub_words_roundtrip ⟨3, 1⟩ ⟨2 ^ 128 - 1, 2⟩ ⟨by norm_num, by norm_num⟩
      ⟨by norm_num, by norm_num⟩).1.mpr (by norm_num [Word.intValue]),
   (add_sub_words_roundtrip ⟨3, 1⟩ ⟨2 ^ 128 - 1, 2⟩ ⟨by norm_num, by norm_num⟩
      ⟨by norm_num, by norm_num⟩).2.2 (by norm_num [Word.intValue])⟩

/-! ## C5: memory expansion gas -/

/-- **C5** (counterexample): from `memory_word_size = 0`,
`memory_expansion(offset := 0, length := 32)` returns gas cost 3
(`cost(1) = floor(1/512) + 3·1 = 3`), not 4 as the claim computes. -/
theorem memory_expansion_counterexample :
    memory_expansion 0 0 32 = .ok (1, 3) ∧ memory_expansion 0 0 32 ≠ .ok (1, 4) := by
  constructor <;> decide

/-- **C5** (amended): with `cost(words) = floor(words²/512) + 3·words`,
`memory_expansion(0, 32)` from word size 0 yields `(1, 3)` (the cost is
`(0 + 3) − 0 = 3`), `memory_expansion(31, 1)` also yields word size 1, and in
general a successful `memory_expansion(offset, length)` returns
`max(curr_word_size, ceil((offset + length) / 32))` and `cost(new) − cost(curr)`. -/
theorem memory_expansion_eval :
    memory_expansion 0 0 32 = .ok (1, 3) ∧
    memory_expansion 0 31 1 = .ok (1, 3) ∧
    (∀ c o l ns gc : ℕ, o < 2 ^ 128 → l < 2 ^ 128 →
      memory_expansion c o l = .ok (ns, gc) →
      ns = max c ((o + l + 31) / 32) ∧
      gc = (ns * ns / 512 + 3 * ns) - (c * c / 512 + 3 * c)) := by
  refine ⟨by decide, by decide, ?_⟩
  intro c o l ns gc ho hl hrun
  have hXP : l + o + 31 < P := lt_P (by omega)
  have hX : fadd (fadd l o) 31 = l + o + 31 := by
    rw [show fadd l o = l + o from fadd_eq (lt_P (by omega)),
      fadd_eq (lt_P (by omega))]
  simp only [memory_expansion, N_BYTES_MEMORY_SIZE, hX,
    constant_divmod_eval (l + o + 31) 32 4 (by norm_num) hXP] at hrun
  by_cases hq : (l + o + 31) / 32 < 256 ^ 4
  · rw [if_pos hq, except_bind_ok] at hrun
    by_cases hc : c < 256 ^ 4
    · rw [show (maxN c ((l + o + 31) / 32) 4 : Except Failure ℕ) =
          .ok (max c ((l + o + 31) / 32)) from maxN_eval hc hq,
        except_bind_ok] at hrun
      have hc32 : c < 2 ^ 32 := by
        have : (256 : ℕ) ^ 4 = 2 ^ 32 := by norm_num
        omega
      have hm32 : max c ((l + o + 31) / 32) < 2 ^ 32 := by
        have : (256 : ℕ) ^ 4 = 2 ^ 32 := by norm_num
        have := Nat.max_lt.mpr ⟨hc, hq⟩
        omega
      rw [memory_gas_cost_eval c hc32, except_bind_ok,
        memory_gas_cost_eval _ hm32, except_bind_ok] at hrun
      have hmono : c * c / 512 + 3 * c ≤
          (max c ((l + o + 31) / 32)) * (max c ((l + o + 31) / 32)) / 512 +
            3 * (max c ((l + o + 31) / 32)) := by
        have h1 : c ≤ max c ((l + o + 31) / 32) := le_max_left _ _
        have h2 : c * c ≤ (max c ((l + o + 31) / 32)) * (max c ((l + o + 31) / 32)) :=
          Nat.mul_le_mul h1 h1
        have h3 : c * c / 512 ≤
            (max c ((l + o + 31) / 32)) * (max c ((l + o + 31) / 32)) / 512 :=
          Nat.div_le_div_right h2
        omega
      have hcostP : (max c ((l + o + 31) / 32)) * (max c ((l + o + 31) / 32)) / 512 +
          3 * (max c ((l + o + 31) / 32)) < P := by
        apply lt_P
        have h2 : (max c ((l + o + 31) / 32)) * (max c ((l + o + 31) / 32)) < 2 ^ 64 := by
          calc (max c ((l + o + 31) / 32)) * (max c ((l + o + 31) / 32)) <
              2 ^ 32 * 2 ^ 32 := Nat.mul_lt_mul'' hm32 hm32
          _ = 2 ^ 64 := by norm_num
        have h3 := Nat.div_le_self
          ((max c ((l + o + 31) / 32)) * (max c ((l + o + 31) / 32))) 512
        omega
      rw [fsub_eq_of_le hcostP hmono] at hrun
      have := hrun
      simp only [Except.ok.injEq, Prod.mk.injEq] at this
      rw [show o + l + 31 = l + o + 31 from by omega]
      obtain ⟨hns, hgc⟩ := this
      subst hns
      exact ⟨rfl, hgc.symm⟩
    · rw [show (maxN c ((l + o + 31) / 32) 4 : Except Failure ℕ) =
          .error (.assertionError "lhs exceeds the range") from by
            unfold maxN
            rw [compareN_err_left (by norm_num) hc]
            rfl,
        except_bind_err] at hrun
      exact absurd hrun (by simp)
  · rw [if_neg hq, except_bind_err] at hrun
    exact absurd hrun (by simp)

/-- Instance of C5's amended statement at word size 1, offset 0, length 128. -/
theorem memory_expansion_eval_witness :
    (4 : ℕ) = max 1 ((0 + 128 + 31) / 32) ∧
    (9 : ℕ) = (4 * 4 / 512 + 3 * 4) - (1 * 1 / 512 + 3 * 1) :=
  memory_expansion_eval.2.2 1 0 128 4 9 (by norm_num) (by norm_num) (by decide)

/-! ## C8: `abs_word` idempotence -/

theorem fmul_zero_right (x : ℕ) : fmul x 0 = 0 := by simp [fmul]

theorem constrain_zero_zero : constrain_zero 0 = .ok () := rfl

/-- Evaluation of `is_neg_word` on a well-formed word. -/
theorem is_neg_word_eval {w : Word} (hw : w.hi < 2 ^ 128) :
    is_neg_word w = .ok (if 2 ^ 127 - 1 < w.hi then 1 else 0) := by
  unfold is_neg_word
  rw [compareN_eval_ok (by norm_num) (by norm_num)
    (show w.hi < 256 ^ 16 from by
      have h : (256 : ℕ) ^ 16 = 2 ^ 128 := by norm_num
      omega)]
  rfl

/-- The low-limb carry constraint of `abs_word` is the divmod identity and
always holds. -/
theorem divmod_constraint_lo (p q : ℕ) (hp : p < 2 ^ 128) (hq : q < 2 ^ 128) :
    fsub (fadd (fq ((p + q) % 2 ^ 128))
      (fmul (fq ((p + q) / 2 ^ 128)) (fq (2 ^ 128)))) (fadd p q) = 0 := by
  have hP130 : (2 : ℕ) ^ 130 < P := lt_P (by norm_num)
  have hr : (p + q) % 2 ^ 128 < 2 ^ 128 := Nat.mod_lt _ (by norm_num)
  have hd : (p + q) / 2 ^ 128 ≤ 1 := by omega
  rw [show fq ((p + q) % 2 ^ 128) = (p + q) % 2 ^ 128 from fq_eq (by omega),
    show fq ((p + q) / 2 ^ 128) = (p + q) / 2 ^ 128 from fq_eq (by omega),
    show fq (2 ^ 128) = 2 ^ 128 from fq_eq (by omega),
    show fmul ((p + q) / 2 ^ 128) (2 ^ 128) = (p + q) / 2 ^ 128 * 2 ^ 128 from
      fmul_eq (by omega),
    show fadd ((p + q) % 2 ^ 128) ((p + q) / 2 ^ 128 * 2 ^ 128) = p + q from by
      rw [fadd_eq (by omega)]
      omega,
    show fadd p q = p + q from fadd_eq (by omega)]
  exact fsub_self (by omega)

/-- The high-limb carry constraint of `abs_word` is the divmod identity and
always holds. -/
theorem divmod_constraint_hi (p q cl : ℕ) (hp : p < 2 ^ 128) (hq : q < 2 ^ 128)
    (hcl : cl ≤ 1) :
    fsub (fsub (fadd (fq ((p + q + cl) % 2 ^ 128))
      (fmul (fq ((p + q + cl) / 2 ^ 128)) (fq (2 ^ 128)))) (fq cl)) (fadd p q) = 0 := by
  have hP130 : (2 : ℕ) ^ 130 < P := lt_P (by norm_num)
  have hr : (p + q + cl) % 2 ^ 128 < 2 ^ 128 := Nat.mod_lt _ (by norm_num)
  have hd : (p + q + cl) / 2 ^ 128 ≤ 1 := by omega
  rw [show fq ((p + q + cl) % 2 ^ 128) = (p + q + cl) % 2 ^ 128 from fq_eq (by omega),
    show fq ((p + q + cl) / 2 ^ 128) = (p + q + cl) / 2 ^ 128 from fq_eq (by omega),
    show fq (2 ^ 128) = 2 ^ 128 from fq_eq (by omega),
    show fq cl = cl from fq_eq (by omega),
    show fmul ((p + q + cl) / 2 ^ 128) (2 ^ 128) =
        (p + q + cl) / 2 ^ 128 * 2 ^ 128 from fmul_eq (by omega),
    show fadd ((p + q + cl) % 2 ^ 128) ((p + q + cl) / 2 ^ 128 * 2 ^ 128) =
        p + q + cl from by
      rw [fadd_eq (by omega)]
      omega,
    show fsub (p + q + cl) cl = p + q from by
      rw [fsub_eq_of_le (by omega) (by omega)]
      omega,
    show fadd p q = p + q from fadd_eq (by omega)]
  exact fsub_self (by omega)

/-- Closed-form evaluation of `abs_word` on a well-formed word: the witness is
returned as-is when non-negative, and as `2^256 - x` when negative; all the
constraints hold. -/
theorem abs_word_eval (x : Word) (hx : x.wf) :
    abs_word x =
      if x.hi < 2 ^ 127 then .ok (x, 0)
      else .ok (Word.ofInt (2 ^ 256 - x.intValue), 1) := by
  obtain ⟨h1, h2⟩ := hx
  have hP130 : (2 : ℕ) ^ 130 < P := lt_P (by norm_num)
  simp only [abs_word, is_neg_word_eval h2, except_bind_ok]
  by_cases hneg : x.hi < 2 ^ 127
  · rw [if_pos hneg]
    have hL : (if 2 ^ 127 - 1 < x.hi then (1 : ℕ) else 0) = 0 := by
      rw [if_neg (by omega)]
    simp only [hL, reduceIte]
    rw [show fsub x.lo x.lo = 0 from fsub_self (by omega), fmul_zero_left,
      show fsub x.hi x.hi = 0 from fsub_self (by omega), fmul_zero_left,
      divmod_constraint_lo x.lo x.lo h1 h1,
      divmod_constraint_hi x.hi x.hi ((x.lo + x.lo) / 2 ^ 128) h2 h2 (by omega),
      fmul_zero_right, fmul_zero_right]
    simp only [constrain_zero_zero, except_bind_ok]
  · rw [if_neg hneg]
    have hL : (if 2 ^ 127 - 1 < x.hi then (1 : ℕ) else 0) = 1 := by
      rw [if_pos (by omega)]
    simp only [hL, Nat.reduceEqDiff, reduceIte, Word.ofInt, Word.intValue]
    have hA : (2 ^ 256 - (x.lo + 2 ^ 128 * x.hi)) % 2 ^ 128 < 2 ^ 128 :=
      Nat.mod_lt _ (by norm_num)
    have hB : (2 ^ 256 - (x.lo + 2 ^ 128 * x.hi)) / 2 ^ 128 < 2 ^ 128 := by omega
    rw [show fsub 1 1 = 0 from fsub_self (by omega), fmul_zero_right, fmul_zero_right,
      divmod_constraint_lo x.lo _ h1 hA,
      divmod_constraint_hi x.hi _
        ((x.lo + (2 ^ 256 - (x.lo + 2 ^ 128 * x.hi)) % 2 ^ 128) / 2 ^ 128) h2 hB
        (by omega),
      show (x.lo + (2 ^ 256 - (x.lo + 2 ^ 128 * x.hi)) % 2 ^ 128) % 2 ^ 128 = 0 from
        by omega,
      show (x.hi + (2 ^ 256 - (x.lo + 2 ^ 128 * x.hi)) / 2 ^ 128 +
          (x.lo + (2 ^ 256 - (x.lo + 2 ^ 128 * x.hi)) % 2 ^ 128) / 2 ^ 128) % 2 ^ 128 =
          0 from by omega,
      show (x.hi + (2 ^ 256 - (x.lo + 2 ^ 128 * x.hi)) / 2 ^ 128 +
          (x.lo + (2 ^ 256 - (x.lo + 2 ^ 128 * x.hi)) % 2 ^ 128) / 2 ^ 128) / 2 ^ 128 =
          1 from by omega,
      show fq (0 + 0) = 0 from rfl,
      fmul_zero_left,
      show fsub 1 1 = 0 from fsub_self (by omega), fmul_zero_left]
    simp only [constrain_zero_zero, except_bind_ok]

/-- **C8** (confirmed): `abs_word` is idempotent on its own output for
`x ≠ -2^255`, and `abs_word(-2^255)` returns `-2^255` itself with
`is_negative = 1`, with no special-casing. -/
theorem abs_word_idempotent :
    (∀ (x y : Word) (n : ℕ), x.wf → abs_word x = .ok (y, n) →
      x.intValue ≠ 2 ^ 255 → abs_word y = .ok (y, 0)) ∧
    abs_word ⟨0, 2 ^ 127⟩ = .ok (⟨0, 2 ^ 127⟩, 1) := by
  constructor
  · rintro x y n ⟨h1, h2⟩ hrun hne
    rw [abs_word_eval x ⟨h1, h2⟩] at hrun
    by_cases hneg : x.hi < 2 ^ 127
    · rw [if_pos hneg] at hrun
      simp only [Except.ok.injEq, Prod.mk.injEq] at hrun
      obtain ⟨hy, -⟩ := hrun
      subst hy
      rw [abs_word_eval x ⟨h1, h2⟩, if_pos hneg]
    · rw [if_neg hneg] at hrun
      simp only [Except.ok.injEq, Prod.mk.injEq] at hrun
      obtain ⟨hy, -⟩ := hrun
      subst hy
      have hXlt : x.intValue < 2 ^ 256 := by
        simp only [Word.intValue]
        omega
      have hXgt : 2 ^ 255 < x.intValue := by
        rcases Nat.lt_or_ge (2 ^ 255) x.intValue with h | h
        · exact h
        · exfalso
          apply hne
          simp only [Word.intValue] at h ⊢
          omega
      have hwf : (Word.ofInt (2 ^ 256 - x.intValue)).wf := by
        constructor
        · exact Nat.mod_lt _ (by norm_num)
        · simp only [Word.ofInt]
          omega
      rw [abs_word_eval _ hwf, if_pos (show (Word.ofInt (2 ^ 256 - x.intValue)).hi <
        2 ^ 127 from by
          simp only [Word.ofInt]
          omega)]
  · rw [abs_word_eval ⟨0, 2 ^ 127⟩ ⟨by norm_num, by norm_num⟩,
      if_neg (by norm_num)]
    simp only [Word.intValue, Word.ofInt]
    norm_num

/-- Instance of C8 at `x = (5, 0)` (its own absolute value, non-negative). -/
theorem abs_word_idempotent_witness : abs_word ⟨5, 0⟩ = .ok (⟨5, 0⟩, 0) :=
  abs_word_idempotent.1 ⟨5, 0⟩ ⟨5, 0⟩ 0 ⟨by norm_num, by norm_num⟩
    (by rw [abs_word_eval ⟨5, 0⟩ ⟨by norm_num, by norm_num⟩, if_pos (by norm_num)])
    (by norm_num [Word.intValue])

/-! ## C1: `mul_add_words` -/

theorem mul64_lt {x y : ℕ} (hx : x < 2 ^ 64) (hy : y < 2 ^ 64) : x * y < 2 ^ 128 := by
  calc x * y < 2 ^ 64 * 2 ^ 64 := Nat.mul_lt_mul'' hx hy
  _ = 2 ^ 128 := by norm_num

theorem range_check_ok {v n : ℕ} (hn : n ≤ MAX_N_BYTES) (hv : v < 256 ^ n) :
    range_check v n = .ok () := by
  simp [range_check, hn, hv]

theorem range_check_err {v n : ℕ} (hn : n ≤ MAX_N_BYTES) (hv : ¬ v < 256 ^ n) :
    range_check v n = .error (.constraintUnsat (rangeCheckMsg v n)) := by
  simp [range_check, hn, hv]

theorem constrain_equal_ok {l r : ℕ} (h : l = r) : constrain_equal l r = .ok () := by
  simp [constrain_equal, h]

theorem constrain_equal_err {l r : ℕ} (h : ¬ l = r) :
    constrain_equal l r = .error (.assertionError (expectedEqualMsg l r)) := by
  simp [constrain_equal, h]

/-- **C1** (counterexample): at `a = b = 2^255`, `c = d = 0` every constraint of
`mul_add_words` is satisfied and the returned overflow is `2^126`, yet
`a*b + c = 2^510 ≠ d + 2^126 * 2^256` — the returned overflow is not the part
of `a*b + c` beyond 256 bits (the high cross terms enter it unweighted). -/
theorem mul_add_words_counterexample :
    mul_add_words ⟨0, 2 ^ 127⟩ ⟨0, 2 ^ 127⟩ ⟨0, 0⟩ ⟨0, 0⟩ = .ok (2 ^ 126) ∧
    ¬ (Word.intValue ⟨0, 2 ^ 127⟩ * Word.intValue ⟨0, 2 ^ 127⟩ +
        Word.intValue ⟨0, 0⟩ =
      Word.intValue ⟨0, 0⟩ + 2 ^ 126 * 2 ^ 256) := by
  constructor <;> decide

/-- **C1** (amended): for well-formed words, whenever `mul_add_words a b c d`
completes without failure returning overflow `o`, the congruence
`a*b + c ≡ d (mod 2^256)` holds as unbounded integers, `o = 0` exactly when
`a*b + c = d`, and the exact identity `a*b + c = d + o·2^256` holds whenever
`a*b + c < 2^320` (i.e. the true overflow fits 64 bits, making the unweighted
high cross terms vanish). -/
theorem mul_add_conclusions (AB C D o KHi q13 q22 q31 q23 q32 q33 : ℕ)
    (hD : D < 2 ^ 256)
    (key : AB + C = D + 2 ^ 256 * (KHi + (q13 + q22 + q31) +
      2 ^ 64 * (q23 + q32) + 2 ^ 128 * q33))
    (ho : o = KHi + q13 + q22 + q31 + q23 + q32 + q33) :
    (AB + C) % 2 ^ 256 = D ∧ (o = 0 ↔ AB + C = D) ∧
    (AB + C < 2 ^ 320 → AB + C = D + o * 2 ^ 256) := by
  refine ⟨?_, ?_, ?_⟩ <;> omega

theorem mul_add_words_correct :
    ∀ a b c d : Word, ∀ o : ℕ, a.wf → b.wf → c.wf → d.wf →
      mul_add_words a b c d = .ok o →
      (a.intValue * b.intValue + c.intValue) % 2 ^ 256 = d.intValue ∧
      (o = 0 ↔ a.intValue * b.intValue + c.intValue = d.intValue) ∧
      (a.intValue * b.intValue + c.intValue < 2 ^ 320 →
        a.intValue * b.intValue + c.intValue = d.intValue + o * 2 ^ 256) := by
  rintro a b c d o ⟨ha1, ha2⟩ ⟨hb1, hb2⟩ ⟨hc1, hc2⟩ ⟨hd1, hd2⟩ hrun
  simp only [mul_add_words, Word.to64s] at hrun
  have hA0 : a.lo % 2 ^ 64 < 2 ^ 64 := Nat.mod_lt _ (by norm_num)
  have hA1 : a.lo / 2 ^ 64 < 2 ^ 64 := by omega
  have hA2 : a.hi % 2 ^ 64 < 2 ^ 64 := Nat.mod_lt _ (by norm_num)
  have hA3 : a.hi / 2 ^ 64 < 2 ^ 64 := by omega
  have hB0 : b.lo % 2 ^ 64 < 2 ^ 64 := Nat.mod_lt _ (by norm_num)
  have hB1 : b.lo / 2 ^ 64 < 2 ^ 64 := by omega
  have hB2 : b.hi % 2 ^ 64 < 2 ^ 64 := Nat.mod_lt _ (by norm_num)
  have hB3 : b.hi / 2 ^ 64 < 2 ^ 64 := by omega
  have hm : ∀ x y : ℕ, x < 2 ^ 64 → y < 2 ^ 64 → fmul x y = x * y := fun x y hx hy =>
    fmul_eq (lt_P (lt_trans (mul64_lt hx hy) (by norm_num)))
  simp only [hm _ _ hA0 hB0, hm _ _ hA0 hB1, hm _ _ hA0 hB2, hm _ _ hA0 hB3,
    hm _ _ hA1 hB0, hm _ _ hA1 hB1, hm _ _ hA1 hB2, hm _ _ hA1 hB3,
    hm _ _ hA2 hB0, hm _ _ hA2 hB1, hm _ _ hA2 hB2, hm _ _ hA2 hB3,
    hm _ _ hA3 hB0, hm _ _ hA3 hB1, hm _ _ hA3 hB2, hm _ _ hA3 hB3] at hrun
  generalize hA0d : a.lo % 2 ^ 64 = A0 at hrun
  generalize hA1d : a.lo / 2 ^ 64 = A1 at hrun
  generalize hA2d : a.hi % 2 ^ 64 = A2 at hrun
  generalize hA3d : a.hi / 2 ^ 64 = A3 at hrun
  generalize hB0d : b.lo % 2 ^ 64 = B0 at hrun
  generalize hB1d : b.lo / 2 ^ 64 = B1 at hrun
  generalize hB2d : b.hi % 2 ^ 64 = B2 at hrun
  generalize hB3d : b.hi / 2 ^ 64 = B3 at hrun
  rw [hA0d] at hA0
  rw [hA1d] at hA1
  rw [hA2d] at hA2
  rw [hA3d] at hA3
  rw [hB0d] at hB0
  rw [hB1d] at hB1
  rw [hB2d] at hB2
  rw [hB3d] at hB3
  have p00 : A0 * B0 < 2 ^ 128 := mul64_lt hA0 hB0
  have p01 : A0 * B1 < 2 ^ 128 := mul64_lt hA0 hB1
  have p02 : A0 * B2 < 2 ^ 128 := mul64_lt hA0 hB2
  have p03 : A0 * B3 < 2 ^ 128 := mul64_lt hA0 hB3
  have p10 : A1 * B0 < 2 ^ 128 := mul64_lt hA1 hB0
  have p11 : A1 * B1 < 2 ^ 128 := mul64_lt hA1 hB1
  have p12 : A1 * B2 < 2 ^ 128 := mul64_lt hA1 hB2
  have p13 : A1 * B3 < 2 ^ 128 := mul64_lt hA1 hB3
  have p20 : A2 * B0 < 2 ^ 128 := mul64_lt hA2 hB0
  have p21 : A2 * B1 < 2 ^ 128 := mul64_lt hA2 hB1
  have p22 : A2 * B2 < 2 ^ 128 := mul64_lt hA2 hB2
  have p23 : A2 * B3 < 2 ^ 128 := mul64_lt hA2 hB3
  have p30 : A3 * B0 < 2 ^ 128 := mul64_lt hA3 hB0
  have p31 : A3 * B1 < 2 ^ 128 := mul64_lt hA3 hB1
  have p32 : A3 * B2 < 2 ^ 128 := mul64_lt hA3 hB2
  have p33 : A3 * B3 < 2 ^ 128 := mul64_lt hA3 hB3
  have hP210 : (2 : ℕ) ^ 201 < P := P_gt_two_pow_201
  have e1 : fadd (A0 * B1) (A1 * B0) = A0 * B1 + A1 * B0 := fadd_eq (lt_P (by omega))
  have e2 : fadd (A0 * B2) (A1 * B1) = A0 * B2 + A1 * B1 := fadd_eq (lt_P (by omega))
  have e3 : fadd (A0 * B2 + A1 * B1) (A2 * B0) = A0 * B2 + A1 * B1 + A2 * B0 :=
    fadd_eq (lt_P (by omega))
  have e4 : fadd (A0 * B3) (A1 * B2) = A0 * B3 + A1 * B2 := fadd_eq (lt_P (by omega))
  have e5 : fadd (A0 * B3 + A1 * B2) (A2 * B1) = A0 * B3 + A1 * B2 + A2 * B1 :=
    fadd_eq (lt_P (by omega))
  have e6 : fadd (A0 * B3 + A1 * B2 + A2 * B1) (A3 * B0) =
      A0 * B3 + A1 * B2 + A2 * B1 + A3 * B0 := fadd_eq (lt_P (by omega))
  have e7 : fmul (A0 * B1 + A1 * B0) (2 ^ 64) = (A0 * B1 + A1 * B0) * 2 ^ 64 :=
    fmul_eq (lt_P (by omega))
  have e8 : fmul (A0 * B3 + A1 * B2 + A2 * B1 + A3 * B0) (2 ^ 64) =
      (A0 * B3 + A1 * B2 + A2 * B1 + A3 * B0) * 2 ^ 64 := fmul_eq (lt_P (by omega))
  have e9 : fadd (A0 * B0) ((A0 * B1 + A1 * B0) * 2 ^ 64) =
      A0 * B0 + (A0 * B1 + A1 * B0) * 2 ^ 64 := fadd_eq (lt_P (by omega))
  have e10 : fadd (A0 * B0 + (A0 * B1 + A1 * B0) * 2 ^ 64) c.lo =
      A0 * B0 + (A0 * B1 + A1 * B0) * 2 ^ 64 + c.lo := fadd_eq (lt_P (by omega))
  have e11 : fadd (A0 * B2 + A1 * B1 + A2 * B0)
      ((A0 * B3 + A1 * B2 + A2 * B1 + A3 * B0) * 2 ^ 64) =
      A0 * B2 + A1 * B1 + A2 * B0 +
        (A0 * B3 + A1 * B2 + A2 * B1 + A3 * B0) * 2 ^ 64 := fadd_eq (lt_P (by omega))
  have e12 : fadd (A0 * B2 + A1 * B1 + A2 * B0 +
      (A0 * B3 + A1 * B2 + A2 * B1 + A3 * B0) * 2 ^ 64) c.hi =
      A0 * B2 + A1 * B1 + A2 * B0 +
        (A0 * B3 + A1 * B2 + A2 * B1 + A3 * B0) * 2 ^ 64 + c.hi :=
    fadd_eq (lt_P (by omega))
  simp only [e1, e2, e3, e4, e5, e6, e7, e8, e9, e10, e11, e12] at hrun
  generalize hKLod : fmul (fsub (A0 * B0 + (A0 * B1 + A1 * B0) * 2 ^ 64 + c.lo) d.lo)
    INV2POW128 = KLo at hrun
  by_cases h1 : KLo < 256 ^ 9
  case neg =>
    rw [range_check_err (by norm_num [MAX_N_BYTES]) h1, except_bind_err] at hrun
    simp at hrun
  rw [range_check_ok (by norm_num [MAX_N_BYTES]) h1, except_bind_ok] at hrun
  have h1' : KLo < 2 ^ 72 := by
    have h256 : (256 : ℕ) ^ 9 = 2 ^ 72 := by norm_num
    omega
  have e13 : fadd (A0 * B2 + A1 * B1 + A2 * B0 +
      (A0 * B3 + A1 * B2 + A2 * B1 + A3 * B0) * 2 ^ 64 + c.hi) KLo =
      A0 * B2 + A1 * B1 + A2 * B0 +
        (A0 * B3 + A1 * B2 + A2 * B1 + A3 * B0) * 2 ^ 64 + c.hi + KLo :=
    fadd_eq (lt_P (by omega))
  simp only [e13] at hrun
  generalize hKHid : fmul (fsub (A0 * B2 + A1 * B1 + A2 * B0 +
    (A0 * B3 + A1 * B2 + A2 * B1 + A3 * B0) * 2 ^ 64 + c.hi + KLo) d.hi)
    INV2POW128 = KHi at hrun
  by_cases h2 : KHi < 256 ^ 9
  case neg =>
    rw [range_check_err (by norm_num [MAX_N_BYTES]) h2, except_bind_err] at hrun
    simp at hrun
  rw [range_check_ok (by norm_num [MAX_N_BYTES]) h2, except_bind_ok] at hrun
  have h2' : KHi < 2 ^ 72 := by
    have h256 : (256 : ℕ) ^ 9 = 2 ^ 72 := by norm_num
    omega
  have e14 : fmul KLo (2 ^ 128) = KLo * 2 ^ 128 := fmul_eq (lt_P (by omega))
  have e15 : fadd d.lo (KLo * 2 ^ 128) = d.lo + KLo * 2 ^ 128 := fadd_eq (lt_P (by omega))
  have e16 : fmul KHi (2 ^ 128) = KHi * 2 ^ 128 := fmul_eq (lt_P (by omega))
  have e17 : fadd d.hi (KHi * 2 ^ 128) = d.hi + KHi * 2 ^ 128 := fadd_eq (lt_P (by omega))
  simp only [e14, e15, e16, e17] at hrun
  by_cases h3 : A0 * B0 + (A0 * B1 + A1 * B0) * 2 ^ 64 + c.lo = d.lo + KLo * 2 ^ 128
  case neg =>
    rw [constrain_equal_err h3, except_bind_err] at hrun
    simp at hrun
  rw [constrain_equal_ok h3, except_bind_ok] at hrun
  by_cases h4 : A0 * B2 + A1 * B1 + A2 * B0 +
      (A0 * B3 + A1 * B2 + A2 * B1 + A3 * B0) * 2 ^ 64 + c.hi + KLo =
      d.hi + KHi * 2 ^ 128
  case neg =>
    rw [constrain_equal_err h4, except_bind_err] at hrun
    simp at hrun
  rw [constrain_equal_ok h4, except_bind_ok] at hrun
  have f1 : fadd KHi (A1 * B3) = KHi + A1 * B3 := fadd_eq (lt_P (by omega))
  have f2 : fadd (KHi + A1 * B3) (A2 * B2) = KHi + A1 * B3 + A2 * B2 :=
    fadd_eq (lt_P (by omega))
  have f3 : fadd (KHi + A1 * B3 + A2 * B2) (A3 * B1) =
      KHi + A1 * B3 + A2 * B2 + A3 * B1 := fadd_eq (lt_P (by omega))
  have f4 : fadd (KHi + A1 * B3 + A2 * B2 + A3 * B1) (A2 * B3) =
      KHi + A1 * B3 + A2 * B2 + A3 * B1 + A2 * B3 := fadd_eq (lt_P (by omega))
  have f5 : fadd (KHi + A1 * B3 + A2 * B2 + A3 * B1 + A2 * B3) (A3 * B2) =
      KHi + A1 * B3 + A2 * B2 + A3 * B1 + A2 * B3 + A3 * B2 :=
    fadd_eq (lt_P (by omega))
  have f6 : fadd (KHi + A1 * B3 + A2 * B2 + A3 * B1 + A2 * B3 + A3 * B2) (A3 * B3) =
      KHi + A1 * B3 + A2 * B2 + A3 * B1 + A2 * B3 + A3 * B2 + A3 * B3 :=
    fadd_eq (lt_P (by omega))
  simp only [f1, f2, f3, f4, f5, f6] at hrun
  have ho : o = KHi + A1 * B3 + A2 * B2 + A3 * B1 + A2 * B3 + A3 * B2 + A3 * B3 := by
    simpa using hrun.symm
  have hDlt : d.intValue < 2 ^ 256 := by
    simp only [Word.intValue]
    omega
  have eaI : a.intValue = A0 + 2 ^ 64 * A1 + 2 ^ 128 * A2 + 2 ^ 192 * A3 := by
    simp only [Word.intValue]
    omega
  have ebI : b.intValue = B0 + 2 ^ 64 * B1 + 2 ^ 128 * B2 + 2 ^ 192 * B3 := by
    simp only [Word.intValue]
    omega
  have ecI : c.intValue = c.lo + 2 ^ 128 * c.hi := rfl
  have edI : d.intValue = d.lo + 2 ^ 128 * d.hi := rfl
  have key : a.intValue * b.intValue + c.intValue =
      d.intValue + 2 ^ 256 * (KHi + (A1 * B3 + A2 * B2 + A3 * B1) +
        2 ^ 64 * (A2 * B3 + A3 * B2) + 2 ^ 128 * (A3 * B3)) := by
    have h3z : ((A0 : ℤ) * B0 + ((A0 : ℤ) * B1 + (A1 : ℤ) * B0) * 2 ^ 64 + c.lo =
        (d.lo : ℤ) + (KLo : ℤ) * 2 ^ 128) := by exact_mod_cast h3
    have h4z : ((A0 : ℤ) * B2 + (A1 : ℤ) * B1 + (A2 : ℤ) * B0 +
        ((A0 : ℤ) * B3 + (A1 : ℤ) * B2 + (A2 : ℤ) * B1 + (A3 : ℤ) * B0) * 2 ^ 64 +
        c.hi + KLo = (d.hi : ℤ) + (KHi : ℤ) * 2 ^ 128) := by exact_mod_cast h4
    have goalZ : ((a.intValue : ℤ) * b.intValue + c.intValue =
        (d.intValue : ℤ) + 2 ^ 256 * ((KHi : ℤ) +
          ((A1 : ℤ) * B3 + (A2 : ℤ) * B2 + (A3 : ℤ) * B1) +
          2 ^ 64 * ((A2 : ℤ) * B3 + (A3 : ℤ) * B2) +
          2 ^ 128 * ((A3 : ℤ) * B3))) := by
      have eaZ : (a.intValue : ℤ) =
          (A0 : ℤ) + 2 ^ 64 * A1 + 2 ^ 128 * A2 + 2 ^ 192 * A3 := by
        rw [eaI]; push_cast; ring
      have ebZ : (b.intValue : ℤ) =
          (B0 : ℤ) + 2 ^ 64 * B1 + 2 ^ 128 * B2 + 2 ^ 192 * B3 := by
        rw [ebI]; push_cast; ring
      have ecZ : (c.intValue : ℤ) = (c.lo : ℤ) + 2 ^ 128 * c.hi := by
        rw [ecI]; push_cast; ring
      have edZ : (d.intValue : ℤ) = (d.lo : ℤ) + 2 ^ 128 * d.hi := by
        rw [edI]; push_cast; ring
      rw [eaZ, ebZ, ecZ, edZ]
      linear_combination h3z + 2 ^ 128 * h4z
    exact_mod_cast goalZ
  exact mul_add_conclusions (a.intValue * b.intValue) c.intValue d.intValue o
    KHi (A1 * B3) (A2 * B2) (A3 * B1) (A2 * B3) (A3 * B2) (A3 * B3) hDlt key ho

/-- Instance of C1's amended statement at `a = 2, b = 3, c = 4, d = 10`
(exact, overflow 0). -/
theorem mul_add_words_correct_witness :
    (Word.intValue ⟨2, 0⟩ * Word.intValue ⟨3, 0⟩ + Word.intValue ⟨4, 0⟩) % 2 ^ 256 =
      Word.intValue ⟨10, 0⟩ ∧
    ((0 : ℕ) = 0 ↔ Word.intValue ⟨2, 0⟩ * Word.intValue ⟨3, 0⟩ + Word.intValue ⟨4, 0⟩ =
      Word.intValue ⟨10, 0⟩) ∧
    (Word.intValue ⟨2, 0⟩ * Word.intValue ⟨3, 0⟩ + Word.intValue ⟨4, 0⟩ < 2 ^ 320 →
      Word.intValue ⟨2, 0⟩ * Word.intValue ⟨3, 0⟩ + Word.intValue ⟨4, 0⟩ =
        Word.intValue ⟨10, 0⟩ + 0 * 2 ^ 256) :=
  mul_add_words_correct ⟨2, 0⟩ ⟨3, 0⟩ ⟨4, 0⟩ ⟨10, 0⟩ 0
    ⟨by norm_num, by norm_num⟩ ⟨by norm_num, by norm_num⟩
    ⟨by norm_num, by norm_num⟩ ⟨by norm_num, by norm_num⟩ (by decide)

/-- Peeling a successful `Except` bind: the first component succeeded too. -/
theorem bind_eq_ok {ε α β : Type} {e : Except ε α} {f : α → Except ε β} {b : β}
    (h : (e >>= f) = .ok b) : ∃ a, e = .ok a ∧ f a = .ok b := by
  cases e with
  | error err => rw [except_bind_err] at h; exact absurd h (by simp)
  | ok a => exact ⟨a, rfl, by rwa [except_bind_ok] at h⟩

theorem except_pure_eq_ok {ε α : Type} (a : α) : (pure a : Except ε α) = .ok a := rfl

/-- Evaluation of `account_read_word` on a present row. -/
theorem account_read_word_eval (tbl : RWTable) (curr : StepState)
    (addr ftag : ℕ) (st : IState) (row : RWTableRow)
    (hrow : tbl (account_read_query curr addr ftag st.rw_counter_offset) = some row) :
    account_read_word tbl curr addr ftag st =
      .ok (row.value, ⟨st.rw_counter_offset + 1,
        st.queries ++ [account_read_query curr addr ftag st.rw_counter_offset]⟩) := by
  simp only [account_read_word, rw_lookup, tables_rw_lookup, account_read_query] at hrow ⊢
  rw [hrow]
  rfl

/-- C10: `account_read` performs the Account-tag read lookup exactly as
`account_read_word` does — same query recorded, same cursor advance, same
failure on a missing row — but its result value is always `none`; only
`account_read_word` returns the value read. -/
theorem account_read_returns_none (tbl : RWTable) (curr : StepState)
    (addr ftag : ℕ) (st : IState) :
    account_read tbl curr addr ftag st =
      (account_read_word tbl curr addr ftag st).map
        (fun p => ((none : Option ℕ), p.2)) ∧
    (∀ row, tbl (account_read_query curr addr ftag st.rw_counter_offset) = some row →
      account_read tbl curr addr ftag st =
        .ok (none, ⟨st.rw_counter_offset + 1,
          st.queries ++ [account_read_query curr addr ftag st.rw_counter_offset]⟩) ∧
      account_read_word tbl curr addr ftag st =
        .ok (row.value, ⟨st.rw_counter_offset + 1,
          st.queries ++ [account_read_query curr addr ftag st.rw_counter_offset]⟩)) ∧
    (tbl (account_read_query curr addr ftag st.rw_counter_offset) = none →
      account_read tbl curr addr ftag st = .error (.lookupAbsent "no matching RW row")) := by
  refine ⟨?_, ?_, ?_⟩
  · cases h : account_read_word tbl curr addr ftag st with
    | error e =>
        unfold account_read
        rw [h, except_bind_err]
        simp [Except.map]
    | ok p =>
        unfold account_read
        rw [h, except_bind_ok]
        obtain ⟨w, st'⟩ := p
        simp [Except.map, except_pure_eq_ok]
  · intro row hrow
    have hword := account_read_word_eval tbl curr addr ftag st row hrow
    refine ⟨?_, hword⟩
    unfold account_read
    rw [hword, except_bind_ok]
    rfl
  · intro hnone
    unfold account_read account_read_word
    simp only [rw_lookup, tables_rw_lookup, account_read_query] at hnone ⊢
    rw [hnone]
    rfl

/-- Instance of C10 on a concrete table: the read succeeds, the query is
recorded and the cursor advances, yet the returned value is `none` while
`account_read_word` returns the row's value `⟨7, 8⟩`. -/
theorem account_read_returns_none_witness :
    account_read exAccountTbl exCurr 5 6 ⟨0, []⟩ =
      .ok (none, ⟨1, [account_read_query exCurr 5 6 0]⟩) ∧
    account_read_word exAccountTbl exCurr 5 6 ⟨0, []⟩ =
      .ok ((⟨7, 8⟩ : Word), ⟨1, [account_read_query exCurr 5 6 0]⟩) := by
  have h := (account_read_returns_none exAccountTbl exCurr 5 6 ⟨0, []⟩).2.1
    exAccountRow (by decide)
  simpa [exAccountRow] using h

theorem except_throw_eq_error {ε α : Type} (e : ε) :
    (throw e : Except ε α) = .error e := rfl

/-- Extraction from a successful implicit-counter `rw_lookup`: the table holds
the row at the cursor's query, and the cursor advances past the recorded
query. -/
theorem rw_lookup_ok {tbl : RWTable} {curr : StepState} {rw : Bool} {tag : ℕ}
    {id address field_tag : Option ℕ} {sk v vp aux : Option Word}
    {st : IState} {row : RWTableRow} {st' : IState}
    (h : rw_lookup tbl curr rw tag id address field_tag sk v vp aux none st =
      .ok (row, st')) :
    tbl ⟨fadd curr.rw_counter st.rw_counter_offset, rw, tag, id, address, field_tag,
        sk, v, vp, aux⟩ = some row ∧
    st' = ⟨st.rw_counter_offset + 1, st.queries ++
      [⟨fadd curr.rw_counter st.rw_counter_offset, rw, tag, id, address, field_tag,
        sk, v, vp, aux⟩]⟩ := by
  simp only [rw_lookup, tables_rw_lookup] at h
  cases hq : tbl ⟨fadd curr.rw_counter st.rw_counter_offset, rw, tag, id, address,
      field_tag, sk, v, vp, aux⟩ with
  | none => rw [hq] at h; exact absurd h (by simp)
  | some r =>
      rw [hq] at h
      simp only [Except.ok.injEq, Prod.mk.injEq] at h
      obtain ⟨hr, hst⟩ := h
      subst hr
      exact ⟨rfl, hst.symm⟩

/-- C2: `state_write` always issues the primary write query; with a
non-persistent reversion info it additionally issues exactly one mirror query
at `rw_counter_end_of_reversion - reversible_write_counter` with `value` and
`value_prev` swapped and increments the reversible-write counter, so two
consecutive reversible writes mirror at `rw_counter_end_of_reversion` and
`rw_counter_end_of_reversion - 1`; with a persistent reversion info no mirror
query is issued. -/
theorem state_write_reversion_mirror :
    (∀ (tbl : RWTable) (curr : StepState) (tag : ℕ)
        (id address field_tag : Option ℕ) (sk v vp aux : Option Word)
        (ri : ReversionInfo) (st : IState) (row : RWTableRow)
        (ri' : Option ReversionInfo) (st' : IState),
      state_write tbl curr tag id address field_tag sk v vp aux (some ri) st =
        .ok ((row, ri'), st') →
      (ri.is_persistent = 0 →
        st'.queries = st.queries ++
          [state_write_query curr st.rw_counter_offset tag id address field_tag
              sk v vp aux,
            mirror_query tag
              (fsub ri.rw_counter_end_of_reversion ri.reversible_write_counter) row] ∧
        st'.rw_counter_offset = st.rw_counter_offset + 1 ∧
        ri' = some ⟨ri.rw_counter_end_of_reversion, ri.is_persistent,
          fadd ri.reversible_write_counter 1⟩) ∧
      (ri.is_persistent ≠ 0 →
        st'.queries = st.queries ++
          [state_write_query curr st.rw_counter_offset tag id address field_tag
              sk v vp aux] ∧
        st'.rw_counter_offset = st.rw_counter_offset + 1 ∧
        ri' = some ri)) ∧
    (∀ (tbl : RWTable) (curr : StepState) (tag₁ : ℕ)
        (id₁ a₁ f₁ : Option ℕ) (sk₁ v₁ vp₁ x₁ : Option Word) (tag₂ : ℕ)
        (id₂ a₂ f₂ : Option ℕ) (sk₂ v₂ vp₂ x₂ : Option Word)
        (rend : ℕ) (st : IState) (row₁ : RWTableRow) (ri₁ : ReversionInfo)
        (st₁ : IState) (row₂ : RWTableRow) (ri₂ : Option ReversionInfo)
        (st₂ : IState),
      1 ≤ rend → rend < P →
      state_write tbl curr tag₁ id₁ a₁ f₁ sk₁ v₁ vp₁ x₁ (some ⟨rend, 0, 0⟩) st =
        .ok ((row₁, some ri₁), st₁) →
      state_write tbl curr tag₂ id₂ a₂ f₂ sk₂ v₂ vp₂ x₂ (some ri₁) st₁ =
        .ok ((row₂, ri₂), st₂) →
      st₂.queries = st.queries ++
        [state_write_query curr st.rw_counter_offset tag₁ id₁ a₁ f₁ sk₁ v₁ vp₁ x₁,
          mirror_query tag₁ rend row₁,
          state_write_query curr st₁.rw_counter_offset tag₂ id₂ a₂ f₂ sk₂ v₂ vp₂ x₂,
          mirror_query tag₂ (rend - 1) row₂]) := by
  have part1 : ∀ (tbl : RWTable) (curr : StepState) (tag : ℕ)
      (id address field_tag : Option ℕ) (sk v vp aux : Option Word)
      (ri : ReversionInfo) (st : IState) (row : RWTableRow)
      (ri' : Option ReversionInfo) (st' : IState),
      state_write tbl curr tag id address field_tag sk v vp aux (some ri) st =
        .ok ((row, ri'), st') →
      (ri.is_persistent = 0 →
        st'.queries = st.queries ++
          [state_write_query curr st.rw_counter_offset tag id address field_tag
              sk v vp aux,
            mirror_query tag
              (fsub ri.rw_counter_end_of_reversion ri.reversible_write_counter) row] ∧
        st'.rw_counter_offset = st.rw_counter_offset + 1 ∧
        ri' = some ⟨ri.rw_counter_end_of_reversion, ri.is_persistent,
          fadd ri.reversible_write_counter 1⟩) ∧
      (ri.is_persistent ≠ 0 →
        st'.queries = st.queries ++
          [state_write_query curr st.rw_counter_offset tag id address field_tag
              sk v vp aux] ∧
        st'.rw_counter_offset = st.rw_counter_offset + 1 ∧
        ri' = some ri) := by
    intro tbl curr tag id address field_tag sk v vp aux ri st row ri' st' hrun
    unfold state_write at hrun
    by_cases hw : RWTableTag.write_with_reversion tag = true
    · rw [if_neg (not_not_intro hw)] at hrun
      obtain ⟨⟨row₀, stA⟩, hlk, hrun⟩ := bind_eq_ok hrun
      obtain ⟨hq, hstA⟩ := rw_lookup_ok hlk
      subst hstA
      constructor
      · intro hp
        simp only [ReversionInfo.rw_counter_of_reversion] at hrun
        rw [if_pos hp] at hrun
        obtain ⟨⟨r2, stB⟩, hlk2, hrun⟩ := bind_eq_ok hrun
        simp only [tables_rw_lookup] at hlk2
        cases hq2 : tbl (mirror_query tag
            (fsub ri.rw_counter_end_of_reversion ri.reversible_write_counter) row₀) with
        | none =>
            rw [show (⟨fsub ri.rw_counter_end_of_reversion ri.reversible_write_counter,
                true, tag, some row₀.id, some row₀.address, some row₀.field_tag,
                some row₀.storage_key, some row₀.value_prev, some row₀.value,
                some row₀.aux0⟩ : RWLookupQuery) = mirror_query tag
                (fsub ri.rw_counter_end_of_reversion ri.reversible_write_counter) row₀
              from rfl, hq2] at hlk2
            exact absurd hlk2 (by simp)
        | some r =>
            rw [show (⟨fsub ri.rw_counter_end_of_reversion ri.reversible_write_counter,
                true, tag, some row₀.id, some row₀.address, some row₀.field_tag,
                some row₀.storage_key, some row₀.value_prev, some row₀.value,
                some row₀.aux0⟩ : RWLookupQuery) = mirror_query tag
                (fsub ri.rw_counter_end_of_reversion ri.reversible_write_counter) row₀
              from rfl, hq2] at hlk2
            simp only [Except.ok.injEq, Prod.mk.injEq] at hlk2
            obtain ⟨-, hstB⟩ := hlk2
            subst hstB
            simp only [except_pure_eq_ok, Except.ok.injEq, Prod.mk.injEq] at hrun
            obtain ⟨⟨hrow, hri⟩, hst⟩ := hrun
            subst hrow hri hst
            refine ⟨?_, rfl, rfl⟩
            simp [state_write_query, mirror_query]
      · intro hp
        simp only [ReversionInfo.rw_counter_of_reversion] at hrun
        rw [if_neg hp] at hrun
        simp only [except_pure_eq_ok, Except.ok.injEq, Prod.mk.injEq] at hrun
        obtain ⟨⟨hrow, hri⟩, hst⟩ := hrun
        subst hrow hri hst
        exact ⟨by simp [state_write_query], rfl, rfl⟩
    · rw [if_pos hw] at hrun
      rw [except_throw_eq_error] at hrun
      exact absurd hrun (by simp)
  refine ⟨part1, ?_⟩
  intro tbl curr tag₁ id₁ a₁ f₁ sk₁ v₁ vp₁ x₁ tag₂ id₂ a₂ f₂ sk₂ v₂ vp₂ x₂
    rend st row₁ ri₁ st₁ row₂ ri₂ st₂ h1 hP hw1 hw2
  obtain ⟨c1, -⟩ := part1 tbl curr tag₁ id₁ a₁ f₁ sk₁ v₁ vp₁ x₁ ⟨rend, 0, 0⟩
    st row₁ (some ri₁) st₁ hw1
  obtain ⟨hq1, -, hri1⟩ := c1 rfl
  have hri1' : ri₁ = ⟨rend, 0, fadd 0 1⟩ := by simpa using hri1
  subst hri1'
  obtain ⟨c2, -⟩ := part1 tbl curr tag₂ id₂ a₂ f₂ sk₂ v₂ vp₂ x₂ ⟨rend, 0, fadd 0 1⟩
    st₁ row₂ ri₂ st₂ hw2
  obtain ⟨hq2, -, -⟩ := c2 rfl
  have hone : fadd 0 1 = 1 := fadd_zero_left (by
    have : (1 : ℕ) < 2 ^ 201 := by norm_num
    exact lt_P this)
  rw [hq2, hq1, hone, fsub_zero hP, fsub_eq_of_le hP h1]
  simp

/-- Instance of C2's two-write scenario on a concrete table: from reversion
info `(end = 100, is_persistent = 0, counter = 0)`, the four recorded queries
are the two primaries (rw-counters 9, 10) and the two mirrors at 100 and 99
with value/value_prev swapped. -/
theorem state_write_reversion_mirror_witness :
    (⟨2, [exQ1, exM1, exQ2, exM2]⟩ : IState).queries =
      ([] : List RWLookupQuery) ++
        [state_write_query exCurr 0 RWTableTag.TxRefund none none none none
            (some ⟨1, 0⟩) (some ⟨2, 0⟩) none,
          mirror_query RWTableTag.TxRefund 100 exWriteRow,
          state_write_query exCurr ((⟨1, [exQ1, exM1]⟩ : IState)).rw_counter_offset
            RWTableTag.TxRefund none none none none (some ⟨1, 0⟩) (some ⟨2, 0⟩) none,
          mirror_query RWTableTag.TxRefund (100 - 1) exWriteRow] :=
  (state_write_reversion_mirror.2 exWriteTbl exCurr RWTableTag.TxRefund none none none
      none (some ⟨1, 0⟩) (some ⟨2, 0⟩) none RWTableTag.TxRefund none none none none
      (some ⟨1, 0⟩) (some ⟨2, 0⟩) none 100 ⟨0, []⟩ exWriteRow ⟨100, 0, 1⟩
      ⟨1, [exQ1, exM1]⟩ exWriteRow (some ⟨100, 0, 2⟩) ⟨2, [exQ1, exM1, exQ2, exM2]⟩)
    (by decide) (by decide) (by decide) (by decide)

/-- Extraction from a successful `call_context_lookup_word`: the row exists at
the cursor's query, the word read is its value, and the cursor advances. -/
theorem ccl_word_ok {tbl : RWTable} {curr : StepState} {ft : ℕ} {rw : Bool}
    {cid : Option ℕ} {st : IState} {w : Word} {st' : IState}
    (h : call_context_lookup_word tbl curr ft rw cid st = .ok (w, st')) :
    ∃ row, tbl ⟨fadd curr.rw_counter st.rw_counter_offset, rw, RWTableTag.CallContext,
        some (cid.getD curr.call_id), some ft, none, none, none, none, none⟩ =
        some row ∧
      w = row.value ∧
      st'.rw_counter_offset = st.rw_counter_offset + 1 ∧
      st'.queries = st.queries ++
        [⟨fadd curr.rw_counter st.rw_counter_offset, rw, RWTableTag.CallContext,
          some (cid.getD curr.call_id), some ft, none, none, none, none, none⟩] := by
  simp only [call_context_lookup_word] at h
  obtain ⟨⟨row, stA⟩, hlk, h⟩ := bind_eq_ok h
  obtain ⟨hq, hstA⟩ := rw_lookup_ok hlk
  subst hstA
  simp only [except_pure_eq_ok, Except.ok.injEq, Prod.mk.injEq] at h
  obtain ⟨hw, hst⟩ := h
  exact ⟨row, hq, hw.symm, by rw [← hst], by rw [← hst]⟩

/-- Extraction from a successful scalar `call_context_lookup`. -/
theorem ccl_ok {tbl : RWTable} {curr : StepState} {ft : ℕ} {rw : Bool}
    {cid : Option ℕ} {st : IState} {x : ℕ} {st' : IState}
    (h : call_context_lookup tbl curr ft rw cid st = .ok (x, st')) :
    ∃ row, tbl ⟨fadd curr.rw_counter st.rw_counter_offset, rw, RWTableTag.CallContext,
        some (cid.getD curr.call_id), some ft, none, none, none, none, none⟩ =
        some row ∧
      x = row.value.lo ∧
      st'.rw_counter_offset = st.rw_counter_offset + 1 ∧
      st'.queries = st.queries ++
        [⟨fadd curr.rw_counter st.rw_counter_offset, rw, RWTableTag.CallContext,
          some (cid.getD curr.call_id), some ft, none, none, none, none, none⟩] := by
  simp only [call_context_lookup] at h
  obtain ⟨⟨w, stA⟩, hw, h⟩ := bind_eq_ok h
  obtain ⟨row, hq, hval, hoff, hqs⟩ := ccl_word_ok hw
  subst hval
  simp only [except_pure_eq_ok, Except.ok.injEq, Prod.mk.injEq] at h
  obtain ⟨hx, hst⟩ := h
  subst hst
  exact ⟨row, hq, hx.symm, hoff, hqs⟩

/-- A successful `delta` scalar-transition check pins the next value. -/
theorem check_delta_ok {c n v : ℕ} {u : Unit}
    (h : check_scalar_transition c n (some (.delta v)) = .ok u) : n = fadd c v := by
  by_contra hne
  simp only [check_scalar_transition, if_neg hne] at h
  exact absurd h (by simp)

/-- A successful `to` scalar-transition check pins the next value. -/
theorem check_to_ok {c n v : ℕ} {u : Unit}
    (h : check_scalar_transition c n (some (.to v)) = .ok u) : n = v := by
  by_contra hne
  simp only [check_scalar_transition, if_neg hne] at h
  exact absurd h (by simp)

/-- C4: a successful `step_state_transition_to_restored_context` constrains
the next rw-counter to advance by `rw_counter_delta + 11` plus one more when
the caller id had to be looked up; the next gas to the caller's saved gas plus
the leftover gas refund; and the next reversible-write counter to the caller's
saved one plus the current counter exactly when the current state halts in
success (plus zero otherwise). -/
theorem restored_context_accounting (tbl : RWTable) (curr next : StepState)
    (rw_counter_delta return_data_offset return_data_length gas_left : ℕ)
    (caller_id : Option ℕ) (st st' : IState) (u : Unit)
    (hrun : step_state_transition_to_restored_context tbl curr next rw_counter_delta
      return_data_offset return_data_length gas_left caller_id st = .ok (u, st')) :
    next.rw_counter = fadd curr.rw_counter
      (rw_counter_delta + 11 + (if caller_id.isNone then 1 else 0)) ∧
    next.gas_left =
      fadd (caller_gas_left_read tbl curr st.rw_counter_offset caller_id) gas_left ∧
    next.reversible_write_counter =
      fadd (caller_rwc_read tbl curr st.rw_counter_offset caller_id)
        (if curr.execution_state.haltsInSuccess = true
          then curr.reversible_write_counter else 0) := by
  cases caller_id with
  | some c =>
      simp only [step_state_transition_to_restored_context] at hrun
      obtain ⟨⟨c0, st0⟩, hc0, hrun⟩ := bind_eq_ok hrun
      simp only [except_pure_eq_ok, Except.ok.injEq, Prod.mk.injEq] at hc0
      obtain ⟨hc0c, hc0s⟩ := hc0
      subst hc0c hc0s
      obtain ⟨⟨w1, st1⟩, h1, hrun⟩ := bind_eq_ok hrun
      obtain ⟨r1, hq1, he1, ho1, _⟩ := ccl_word_ok h1
      subst he1
      obtain ⟨⟨w2, st2⟩, h2, hrun⟩ := bind_eq_ok hrun
      obtain ⟨r2, hq2, he2, ho2, _⟩ := ccl_word_ok h2
      subst he2
      obtain ⟨⟨w3, st3⟩, h3, hrun⟩ := bind_eq_ok hrun
      obtain ⟨r3, hq3, he3, ho3, _⟩ := ccl_word_ok h3
      subst he3
      obtain ⟨⟨w4, st4⟩, h4, hrun⟩ := bind_eq_ok hrun
      obtain ⟨r4, hq4, he4, ho4, _⟩ := ccl_word_ok h4
      subst he4
      obtain ⟨⟨w5, st5⟩, h5, hrun⟩ := bind_eq_ok hrun
      obtain ⟨r5, hq5, he5, ho5, _⟩ := ccl_word_ok h5
      subst he5
      obtain ⟨⟨w6, st6⟩, h6, hrun⟩ := bind_eq_ok hrun
      obtain ⟨r6, hq6, he6, ho6, _⟩ := ccl_word_ok h6
      subst he6
      obtain ⟨⟨w7, st7⟩, h7, hrun⟩ := bind_eq_ok hrun
      obtain ⟨r7, hq7, he7, ho7, _⟩ := ccl_word_ok h7
      subst he7
      obtain ⟨⟨w8, st8⟩, h8, hrun⟩ := bind_eq_ok hrun
      obtain ⟨r8, hq8, he8, ho8, _⟩ := ccl_word_ok h8
      subst he8
      obtain ⟨⟨v1, st9⟩, h9, hrun⟩ := bind_eq_ok hrun
      obtain ⟨r9, _, _, ho9, _⟩ := ccl_ok h9
      obtain ⟨_, _, hrun⟩ := bind_eq_ok hrun
      obtain ⟨⟨v2, st10⟩, h10, hrun⟩ := bind_eq_ok hrun
      obtain ⟨r10, _, _, ho10, _⟩ := ccl_ok h10
      obtain ⟨_, _, hrun⟩ := bind_eq_ok hrun
      obtain ⟨⟨v3, st11⟩, h11, hrun⟩ := bind_eq_ok hrun
      obtain ⟨r11, _, _, ho11, _⟩ := ccl_ok h11
      obtain ⟨_, _, hrun⟩ := bind_eq_ok hrun
      obtain ⟨_, hcst, hrun⟩ := bind_eq_ok hrun
      simp only [constrain_step_state_transition] at hcst
      obtain ⟨_, hch1, hcst⟩ := bind_eq_ok hcst
      obtain ⟨_, _, hcst⟩ := bind_eq_ok hcst
      obtain ⟨_, _, hcst⟩ := bind_eq_ok hcst
      obtain ⟨_, _, hcst⟩ := bind_eq_ok hcst
      obtain ⟨_, _, hcst⟩ := bind_eq_ok hcst
      obtain ⟨_, _, hcst⟩ := bind_eq_ok hcst
      obtain ⟨_, _, hcst⟩ := bind_eq_ok hcst
      obtain ⟨_, hch8, hcst⟩ := bind_eq_ok hcst
      obtain ⟨_, _, hcst⟩ := bind_eq_ok hcst
      obtain ⟨_, hch10, _⟩ := bind_eq_ok hcst
      have hrw := check_delta_ok hch1
      have hgas := check_to_ok hch8
      have hrwc := check_to_ok hch10
      simp only [] at ho1 ho2 ho3 ho4 ho5 ho6 ho7
      simp only [Option.getD_some] at hq6 hq8
      have e6 : st5.rw_counter_offset = st.rw_counter_offset + 5 := by omega
      have e8 : st7.rw_counter_offset = st.rw_counter_offset + 7 := by omega
      rw [e6] at hq6
      rw [e8] at hq8
      refine ⟨hrw, ?_, ?_⟩
      · rw [hgas]
        have hread : caller_gas_left_read tbl curr st.rw_counter_offset (some c) =
            r6.value.lo := by
          simp [caller_gas_left_read, resolved_caller_id, restored_ctx_query, hq6]
        rw [hread]
      · rw [hrwc]
        have hread : caller_rwc_read tbl curr st.rw_counter_offset (some c) =
            r8.value.lo := by
          simp [caller_rwc_read, resolved_caller_id, restored_ctx_query, hq8]
        rw [hread]
  | none =>
      simp only [step_state_transition_to_restored_context] at hrun
      obtain ⟨⟨c0, st0⟩, hc0, hrun⟩ := bind_eq_ok hrun
      obtain ⟨r0, hq0, hc0v, ho0, _⟩ := ccl_ok hc0
      subst hc0v
      simp only [Option.getD_none] at hq0
      obtain ⟨⟨w1, st1⟩, h1, hrun⟩ := bind_eq_ok hrun
      obtain ⟨r1, hq1, he1, ho1, _⟩ := ccl_word_ok h1
      subst he1
      obtain ⟨⟨w2, st2⟩, h2, hrun⟩ := bind_eq_ok hrun
      obtain ⟨r2, hq2, he2, ho2, _⟩ := ccl_word_ok h2
      subst he2
      obtain ⟨⟨w3, st3⟩, h3, hrun⟩ := bind_eq_ok hrun
      obtain ⟨r3, hq3, he3, ho3, _⟩ := ccl_word_ok h3
      subst he3
      obtain ⟨⟨w4, st4⟩, h4, hrun⟩ := bind_eq_ok hrun
      obtain ⟨r4, hq4, he4, ho4, _⟩ := ccl_word_ok h4
      subst he4
      obtain ⟨⟨w5, st5⟩, h5, hrun⟩ := bind_eq_ok hrun
      obtain ⟨r5, hq5, he5, ho5, _⟩ := ccl_word_ok h5
      subst he5
      obtain ⟨⟨w6, st6⟩, h6, hrun⟩ := bind_eq_ok hrun
      obtain ⟨r6, hq6, he6, ho6, _⟩ := ccl_word_ok h6
      subst he6
      obtain ⟨⟨w7, st7⟩, h7, hrun⟩ := bind_eq_ok hrun
      obtain ⟨r7, hq7, he7, ho7, _⟩ := ccl_word_ok h7
      subst he7
      obtain ⟨⟨w8, st8⟩, h8, hrun⟩ := bind_eq_ok hrun
      obtain ⟨r8, hq8, he8, ho8, _⟩ := ccl_word_ok h8
      subst he8
      obtain ⟨⟨v1, st9⟩, h9, hrun⟩ := bind_eq_ok hrun
      obtain ⟨r9, _, _, ho9, _⟩ := ccl_ok h9
      obtain ⟨_, _, hrun⟩ := bind_eq_ok hrun
      obtain ⟨⟨v2, st10⟩, h10, hrun⟩ := bind_eq_ok hrun
      obtain ⟨r10, _, _, ho10, _⟩ := ccl_ok h10
      obtain ⟨_, _, hrun⟩ := bind_eq_ok hrun
      obtain ⟨⟨v3, st11⟩, h11, hrun⟩ := bind_eq_ok hrun
      obtain ⟨r11, _, _, ho11, _⟩ := ccl_ok h11
      obtain ⟨_, _, hrun⟩ := bind_eq_ok hrun
      obtain ⟨_, hcst, hrun⟩ := bind_eq_ok hrun
      simp only [constrain_step_state_transition] at hcst
      obtain ⟨_, hch1, hcst⟩ := bind_eq_ok hcst
      obtain ⟨_, _, hcst⟩ := bind_eq_ok hcst
      obtain ⟨_, _, hcst⟩ := bind_eq_ok hcst
      obtain ⟨_, _, hcst⟩ := bind_eq_ok hcst
      obtain ⟨_, _, hcst⟩ := bind_eq_ok hcst
      obtain ⟨_, _, hcst⟩ := bind_eq_ok hcst
      obtain ⟨_, _, hcst⟩ := bind_eq_ok hcst
      obtain ⟨_, hch8, hcst⟩ := bind_eq_ok hcst
      obtain ⟨_, _, hcst⟩ := bind_eq_ok hcst
      obtain ⟨_, hch10, _⟩ := bind_eq_ok hcst
      have hrw := check_delta_ok hch1
      have hgas := check_to_ok hch8
      have hrwc := check_to_ok hch10
      simp only [] at ho0 ho1 ho2 ho3 ho4 ho5 ho6 ho7
      simp only [Option.getD_some] at hq6 hq8
      have e6 : st5.rw_counter_offset = st.rw_counter_offset + 6 := by omega
      have e8 : st7.rw_counter_offset = st.rw_counter_offset + 8 := by omega
      rw [e6] at hq6
      rw [e8] at hq8
      refine ⟨hrw, ?_, ?_⟩
      · rw [hgas]
        have hread : caller_gas_left_read tbl curr st.rw_counter_offset none =
            r6.value.lo := by
          simp [caller_gas_left_read, resolved_caller_id, restored_ctx_query, hq0, hq6]
        rw [hread]
      · rw [hrwc]
        have hread : caller_rwc_read tbl curr st.rw_counter_offset none =
            r8.value.lo := by
          simp [caller_rwc_read, resolved_caller_id, restored_ctx_query, hq0, hq8]
        rw [hread]

/-- Instance of C4 on a concrete all-zero table with `caller_id = some 7` and
a halting-in-success current step: the rw-counter advances by `0 + 11 + 0`,
gas `5` is refunded onto the caller's saved `0`, and the reversible-write
counter `2` is propagated onto the caller's saved `0`. -/
theorem restored_context_accounting_witness :
    exRcNext.rw_counter = fadd exRcCurr.rw_counter
      (0 + 11 + (if (some 7 : Option ℕ).isNone then 1 else 0)) ∧
    exRcNext.gas_left = fadd (caller_gas_left_read exZeroTbl exRcCurr 0 (some 7)) 5 ∧
    exRcNext.reversible_write_counter =
      fadd (caller_rwc_read exZeroTbl exRcCurr 0 (some 7))
        (if exRcCurr.execution_state.haltsInSuccess = true
          then exRcCurr.reversible_write_counter else 0) :=
  restored_context_accounting exZeroTbl exRcCurr exRcNext 0 0 0 5 (some 7) ⟨0, []⟩
    ⟨11, [exRcQ 18 0 false, exRcQ 19 1 false, exRcQ 20 2 false, exRcQ 21 3 false,
      exRcQ 22 4 false, exRcQ 23 5 false, exRcQ 24 6 false, exRcQ 25 7 false,
      exRcQ 15 8 true, exRcQ 16 9 true, exRcQ 17 10 true]⟩ () (by decide)

end ZkevmSpecs
